import Mathlib

/-!
# Impostor bot — verification of the session / channel-reconciliation core

A shallow embedding of the Discord "Among Us" session bot:

* `src/bot/src/listeners.ts` — command parsing (`parseCommandInvocation`,
  `validateLobbyCode`) and the voice membership index
  (`onVoiceJoin` / `onVoiceLeave` / `onVoiceChange` / `getMembersInChannel`);
* `actions.ts` — session cleanup (`cleanUpSession`, `cleanUpOldSessions`),
  the membership reconciler (`moveAllPlayers`,
  `movePlayersToTalkingChannel`, `movePlayersToSilenceChannel`) and the
  status presenter (`updateMessage` and its variants).

Pure functions are translated to Lean functions; the mutable membership
index (`VOICE_CHANNEL_USERS`, a JS `Map`) becomes an association list that
is threaded explicitly; calls into the Discord platform are recorded in an
explicit call log, with boolean oracles deciding which platform calls the
platform accepts (a rejected call models a rejected promise).
-/

namespace Impostor

/-! ## JavaScript string primitives

The TypeScript code uses `String.slice`, `String.indexOf`, `trim`,
`toUpperCase` and `includes`.  We model strings as `List Char` and give
each primitive the JavaScript semantics actually exercised by the code
(`indexOf` returning `-1` is kept as `Option`, and the one call site
`msg.slice(0, msg.indexOf(" "))` reproduces the `slice(0, -1)` behaviour
for a missing space). -/

/-- Characters the JavaScript `String.prototype.trim` removes, restricted
to the ASCII whitespace class (the only whitespace reachable here). -/
def jsIsWs (c : Char) : Bool :=
  c = ' ' || c = '\t' || c = '\n' || c = '\r' || c = '\x0b' || c = '\x0c'

/-- JavaScript `s.trim()`: strip leading and trailing whitespace. -/
def jsTrim (s : List Char) : List Char :=
  ((s.dropWhile jsIsWs).reverse.dropWhile jsIsWs).reverse

/-- JavaScript `s.toUpperCase()` on ASCII data. -/
def jsUpper (s : List Char) : List Char :=
  s.map Char.toUpper

/-- JavaScript `s.indexOf(" ")`: index of the first space, if any. -/
def jsIndexOfSpace : List Char → Option Nat
  | [] => none
  | c :: rest =>
    if c = ' ' then some 0 else (jsIndexOfSpace rest).map (· + 1)

/-- `msg.slice(0, msg.indexOf(" "))`: the word before the first space.
When there is no space, `indexOf` yields `-1` and `slice(0, -1)` drops
the final character — a genuine JavaScript quirk kept faithfully. -/
def nextWordOf (s : List Char) : List Char :=
  match jsIndexOfSpace s with
  | some n => s.take n
  | none => s.take (s.length - 1)

/-! ## Command parsing (`listeners.ts`) -/

/-- `const COMMAND_PREFIX = "!amongus ";` -/
def COMMAND_PREFIX : List Char := "!amongus ".toList

/-- `const V2 = "QWXRTYLPESDFGHUJKZOCVBINMA";` — the lobby-code alphabet. -/
def V2 : List Char := "QWXRTYLPESDFGHUJKZOCVBINMA".toList

/-- Lobby regions, from `constants.ts` (declared there; the enum members
used by the parser are Asia, Europe and North America). -/
inductive LobbyRegion
  | ASIA
  | EUROPE
  | NORTH_AMERICA
deriving DecidableEq, Repr

/-- The three `throw` sites of the parser, by message. -/
inductive ParseError
  /-- "Could not determine the region of the lobby. …" -/
  | noRegion
  /-- "Invalid lobby code. The lobby code must be exactly 6 letters." -/
  | badCodeLength
  /-- "Invalid lobby code. The lobby code contains invalid characters." -/
  | badCodeChars
deriving DecidableEq, Repr

/-- `validateLobbyCode` (`listeners.ts:137-149`): trim, upper-case, then
check the length is 6 and every character is in `V2`. -/
def validateLobbyCode (code : List Char) : Except ParseError (List Char) :=
  let code := jsUpper (jsTrim code)
  if code.length != 6 then
    .error .badCodeLength
  else if code.any (fun x => !(V2.contains x)) then
    .error .badCodeChars
  else
    .ok code

/-- The `nextWord === "north"` branch of `parseCommandInvocation`
(`listeners.ts:107-115`): re-trim the remaining message and look for a
second word `"america"`. -/
def parseNorth (rest : List Char) (s : Option LobbyRegion × List Char) :
    Option LobbyRegion × List Char :=
  let msg' := jsTrim rest
  let nextNextWord := nextWordOf msg'
  if nextNextWord = "america".toList then
    (some LobbyRegion.NORTH_AMERICA, msg'.drop nextNextWord.length)
  else
    (s.1, msg')

/-- The tail of `parseCommandInvocation` (`listeners.ts:117-130`): throw
if no region matched, otherwise validate the remaining message as the
lobby code. -/
def finishParse (s : Option LobbyRegion × List Char) :
    Except ParseError (LobbyRegion × List Char) :=
  match s.1 with
  | none => .error .noRegion
  | some region => (validateLobbyCode s.2).map (fun code => (region, code))

/-- `parseCommandInvocation` (`listeners.ts:79-131`).  The source tests
`nextWord` against each region literal with independent `if`s, slicing
the matched word off `msg`; we thread the `(region?, msg)` pair through
the same cascade. -/
def parseCommandInvocation (msg0 : List Char) :
    Except ParseError (LobbyRegion × List Char) :=
  let msg := msg0.drop COMMAND_PREFIX.length
  let nextWord := nextWordOf msg
  let s : Option LobbyRegion × List Char := (none, msg)
  let s :=
    if nextWord = "asia".toList ∨ nextWord = "as".toList then
      (some LobbyRegion.ASIA, s.2.drop nextWord.length)
    else s
  let s :=
    if nextWord = "eu".toList ∨ nextWord = "europe".toList then
      (some LobbyRegion.EUROPE, s.2.drop nextWord.length)
    else s
  let s :=
    if nextWord = "us".toList ∨ nextWord = "usa".toList ∨ nextWord = "na".toList ∨
        nextWord = "america".toList ∨ nextWord = "northamerica".toList then
      (some LobbyRegion.NORTH_AMERICA, s.2.drop nextWord.length)
    else s
  let s :=
    if nextWord = "north".toList then
      parseNorth (s.2.drop nextWord.length) s
    else s
  finishParse s

/-- `onMessageCreated` creates a session exactly when parsing succeeds
(`listeners.ts:60-72`: the `try` block creates and starts the session,
the `catch` only replies with the error). -/
def commandCreatesSession (msg : List Char) : Bool :=
  (parseCommandInvocation msg).isOk

/-- The region vocabulary the parser accepts, with the region each token
denotes (`listeners.ts:86-115`); every token is lower case. -/
def regionVocab : List (List Char × LobbyRegion) :=
  [("asia".toList, .ASIA), ("as".toList, .ASIA),
   ("eu".toList, .EUROPE), ("europe".toList, .EUROPE),
   ("us".toList, .NORTH_AMERICA), ("usa".toList, .NORTH_AMERICA),
   ("na".toList, .NORTH_AMERICA), ("america".toList, .NORTH_AMERICA),
   ("northamerica".toList, .NORTH_AMERICA),
   ("north america".toList, .NORTH_AMERICA)]

/-- JavaScript `s.toLowerCase()` on ASCII data. -/
def jsLower (s : List Char) : List Char :=
  s.map Char.toLower

/-- A valid lobby code as the spec describes it: exactly 6 characters,
each of which (case-insensitively) belongs to the `V2` alphabet. -/
def isValidCode (c : List Char) : Bool :=
  c.length == 6 && c.all (fun ch => V2.contains ch.toUpper)

/-- A string with no JavaScript whitespace in it. -/
def noWs (c : List Char) : Bool :=
  c.all (fun ch => !jsIsWs ch)

/-! ### Evaluation lemmas for the parser -/

lemma jsIndexOfSpace_append (w c : List Char) (hw : ' ' ∉ w) :
    jsIndexOfSpace (w ++ ' ' :: c) = some w.length := by
  induction w with
  | nil => simp [jsIndexOfSpace]
  | cons a t ih =>
    simp only [List.mem_cons, not_or] at hw
    simp [jsIndexOfSpace, Ne.symm (hw.1), ih hw.2]

lemma nextWordOf_append (w c : List Char) (hw : ' ' ∉ w) :
    nextWordOf (w ++ ' ' :: c) = w := by
  simp [nextWordOf, jsIndexOfSpace_append w c hw, List.take_left]

lemma dropWhile_eq_self_of_head (a : Char) (l : List Char) (h : ¬ jsIsWs a) :
    (a :: l).dropWhile jsIsWs = a :: l := by
  simp [List.dropWhile_cons, h]

lemma jsTrim_space_cons (l : List Char)
    (h1 : l.dropWhile jsIsWs = l) (h2 : l.reverse.dropWhile jsIsWs = l.reverse) :
    jsTrim (' ' :: l) = l := by
  unfold jsTrim
  rw [List.dropWhile_cons]
  simp only [show jsIsWs ' ' = true from rfl, if_true, h1, h2, List.reverse_reverse]

lemma noWs_dropWhile (l : List Char) (h : noWs l = true) :
    l.dropWhile jsIsWs = l := by
  cases l with
  | nil => rfl
  | cons a t =>
    simp only [noWs, List.all_cons, Bool.and_eq_true, Bool.not_eq_true'] at h
    exact dropWhile_eq_self_of_head a t (by simp [h.1])

lemma noWs_reverse (l : List Char) (h : noWs l = true) : noWs l.reverse = true := by
  simp only [noWs, List.all_eq_true] at h ⊢
  intro x hx
  exact h x (List.mem_reverse.mp hx)

lemma jsTrim_space_cons_of_noWs (l : List Char) (h : noWs l = true) :
    jsTrim (' ' :: l) = l :=
  jsTrim_space_cons l (noWs_dropWhile l h)
    (noWs_dropWhile l.reverse (noWs_reverse l h))

/-- Whitespace characters never belong to the lobby-code alphabet, even
after upper-casing. -/
lemma ws_not_in_V2 (ch : Char) (h : jsIsWs ch = true) :
    V2.contains ch.toUpper = false := by
  simp only [jsIsWs, Bool.or_eq_true, decide_eq_true_eq] at h
  rcases h with ((((h | h) | h) | h) | h) | h <;> subst h <;> decide

lemma isValidCode_noWs (c : List Char) (h : isValidCode c = true) :
    noWs c = true := by
  simp only [isValidCode, Bool.and_eq_true, List.all_eq_true] at h
  simp only [noWs, List.all_eq_true]
  intro x hx
  have hv := h.2 x hx
  by_contra hws
  have hws' : jsIsWs x = true := by simpa using hws
  rw [ws_not_in_V2 x hws'] at hv
  exact absurd hv (by simp)

lemma validateLobbyCode_ok (c : List Char) (h : isValidCode c = true) :
    validateLobbyCode (' ' :: c) = .ok (jsUpper c) := by
  have hnws := isValidCode_noWs c h
  simp only [isValidCode, Bool.and_eq_true, beq_iff_eq, List.all_eq_true] at h
  unfold validateLobbyCode
  rw [jsTrim_space_cons_of_noWs c hnws]
  have hlen : ((jsUpper c).length != 6) = false := by
    simp [jsUpper, h.1]
  have hany : ((jsUpper c).any fun x => !(V2.contains x)) = false := by
    simp only [List.any_eq_false, jsUpper, List.mem_map]
    rintro x ⟨y, hy, rfl⟩
    simpa using h.2 y hy
  rw [if_neg (by rw [hlen]; simp), if_neg (by rw [hany]; simp)]

lemma validateLobbyCode_err (c : List Char) (hnws : noWs c = true)
    (h : isValidCode c = false) :
    (validateLobbyCode (' ' :: c)).isOk = false := by
  unfold validateLobbyCode
  rw [jsTrim_space_cons_of_noWs c hnws]
  simp only [isValidCode, Bool.and_eq_false_iff] at h
  rcases h with h | h
  · have hlen : ((jsUpper c).length != 6) = true := by
      simp only [jsUpper, List.length_map, bne_iff_ne, ne_eq]
      simpa using h
    rw [if_pos hlen]
    rfl
  · have hany : ((jsUpper c).any fun x => !(V2.contains x)) = true := by
      simp only [List.all_eq_false] at h
      obtain ⟨x, hx, hv⟩ := h
      simp only [List.any_eq_true, jsUpper, List.mem_map]
      exact ⟨x.toUpper, ⟨x, hx, rfl⟩, by simpa using hv⟩
    by_cases hlen : ((jsUpper c).length != 6) = true
    · rw [if_pos hlen]
      rfl
    · rw [if_neg hlen, if_pos hany]
      rfl

lemma jsTrim_word_space (word c : List Char) (hword : noWs word = true)
    (hwne : word ≠ []) (hnws : noWs c = true) (hne : c ≠ []) :
    jsTrim (' ' :: (word ++ ' ' :: c)) = word ++ ' ' :: c := by
  apply jsTrim_space_cons
  · cases word with
    | nil => exact absurd rfl hwne
    | cons a t =>
      simp only [noWs, List.all_cons, Bool.and_eq_true, Bool.not_eq_true'] at hword
      exact dropWhile_eq_self_of_head a _ (by simp [hword.1])
  · obtain ⟨d, t, hd⟩ : ∃ d t, c.reverse = d :: t := by
      cases hc : c.reverse with
      | nil => exact absurd (by simpa using hc) hne
      | cons d t => exact ⟨d, t, rfl⟩
    have hdm : d ∈ c := by
      rw [← List.mem_reverse, hd]
      exact List.mem_cons_self _ _
    have hdw : ¬ jsIsWs d = true := by
      simp only [noWs, List.all_eq_true] at hnws
      simpa using hnws d hdm
    have hX : (word ++ ' ' :: c).reverse = d :: (t ++ ' ' :: word.reverse) := by
      rw [List.reverse_append, List.reverse_cons, hd]
      simp
    rw [hX]
    exact dropWhile_eq_self_of_head d _ hdw

set_option maxHeartbeats 1600000 in
/-- Evaluating the parser on `<prefix><vocab-token> <code>`: the result is
the validated code (with trailing separator space), tagged with the
token's region. -/
lemma parseCommandInvocation_eval (w : List Char) (r : LobbyRegion) (c : List Char)
    (hw : (w, r) ∈ regionVocab) (hnws : noWs c = true) (hne : c ≠ []) :
    parseCommandInvocation (COMMAND_PREFIX ++ w ++ ' ' :: c) =
      (validateLobbyCode (' ' :: c)).map (fun code => (r, code)) := by
  simp only [regionVocab, List.mem_cons, List.not_mem_nil, or_false,
    Prod.mk.injEq] at hw
  rcases hw with h | h | h | h | h | h | h | h | h | h <;>
    obtain ⟨rfl, rfl⟩ := h
  -- The nine single-word tokens evaluate definitionally down to
  -- `validateLobbyCode`; only "north america" passes through `jsTrim`.
  · rfl
  · rfl
  · rfl
  · rfl
  · rfl
  · rfl
  · rfl
  · rfl
  · rfl
  · -- "north america": the parser reads "north", trims, then reads "america".
    have htrim := jsTrim_word_space "america".toList c (by decide) (by decide) hnws hne
    have hp : parseNorth (' ' :: ("america".toList ++ ' ' :: c))
        (none, "north america".toList ++ ' ' :: c)
        = (some LobbyRegion.NORTH_AMERICA, ' ' :: c) := by
      simp only [parseNorth, htrim]
      rfl
    have h0 : parseCommandInvocation (COMMAND_PREFIX ++ "north america".toList ++ ' ' :: c)
        = finishParse (parseNorth (' ' :: ("america".toList ++ ' ' :: c))
            (none, "north america".toList ++ ' ' :: c)) := rfl
    rw [h0, hp]
    rfl

lemma parse_ok_half (w : List Char) (r : LobbyRegion) (c : List Char)
    (hw : (w, r) ∈ regionVocab) (hc : isValidCode c = true) :
    parseCommandInvocation (COMMAND_PREFIX ++ w ++ ' ' :: c) =
      .ok (r, jsUpper c) := by
  have hnws := isValidCode_noWs c hc
  have hne : c ≠ [] := by
    intro h
    rw [h] at hc
    exact absurd hc (by decide)
  rw [parseCommandInvocation_eval w r c hw hnws hne, validateLobbyCode_ok c hc]
  rfl

lemma parse_err_half (w : List Char) (r : LobbyRegion) (c : List Char)
    (hw : (w, r) ∈ regionVocab) (hnws : noWs c = true)
    (hc : isValidCode c = false) :
    commandCreatesSession (COMMAND_PREFIX ++ w ++ ' ' :: c) = false := by
  by_cases hne : c = []
  · subst hne
    simp only [regionVocab, List.mem_cons, List.not_mem_nil, or_false,
      Prod.mk.injEq] at hw
    rcases hw with h | h | h | h | h | h | h | h | h | h <;>
      obtain ⟨rfl, rfl⟩ := h <;> rfl
  · unfold commandCreatesSession
    rw [parseCommandInvocation_eval w r c hw hnws hne]
    have herr := validateLobbyCode_err c hnws hc
    cases hcode : validateLobbyCode (' ' :: c) with
    | ok v => rw [hcode] at herr; exact absurd herr (by simp [Except.isOk, Except.toBool])
    | error e => rfl

/-- C1 (counterexample): the claim says region tokens are matched
case-insensitively, but the parser compares against lower-case literals
only.  `"EU"` lower-cases to the vocabulary token `"eu"` and `"ABCDEF"`
is a valid code, yet `!amongus EU ABCDEF` fails with the region error
(and hence creates no session), instead of parsing successfully. -/
theorem parse_region_not_case_insensitive :
    (jsLower "EU".toList, LobbyRegion.EUROPE) ∈ regionVocab ∧
    isValidCode "ABCDEF".toList = true ∧
    parseCommandInvocation "!amongus EU ABCDEF".toList =
      .error .noRegion ∧
    commandCreatesSession "!amongus EU ABCDEF".toList = false :=
  ⟨by decide, by decide, by rfl, by rfl⟩

/-- C1 (amended): for every region token written exactly as one of the
lower-case vocabulary words and every whitespace-free code, parsing
`<prefix><token> <code>` succeeds with the upper-cased code when the code
has 6 characters over the `V2` alphabet (case-insensitively), and fails
with a user-visible error — creating no session — when it does not. -/
theorem parseCommandInvocation_spec (w : List Char) (r : LobbyRegion)
    (hw : (w, r) ∈ regionVocab) :
    (∀ c : List Char, isValidCode c = true →
        parseCommandInvocation (COMMAND_PREFIX ++ w ++ ' ' :: c) =
          .ok (r, jsUpper c)) ∧
    (∀ c : List Char, noWs c = true → isValidCode c = false →
        commandCreatesSession (COMMAND_PREFIX ++ w ++ ' ' :: c) = false) :=
  ⟨fun c hc => parse_ok_half w r c hw hc,
   fun c hnws hc => parse_err_half w r c hw hnws hc⟩

/-- C1 (witness): instantiating the amended parsing theorem at the token
`"na"` and codes `"abcdef"` (valid) and `"ABC"` (too short). -/
theorem parseCommandInvocation_spec_witness :
    ("na".toList, LobbyRegion.NORTH_AMERICA) ∈ regionVocab ∧
    parseCommandInvocation (COMMAND_PREFIX ++ "na".toList ++ ' ' :: "abcdef".toList) =
      .ok (LobbyRegion.NORTH_AMERICA, jsUpper "abcdef".toList) ∧
    commandCreatesSession (COMMAND_PREFIX ++ "na".toList ++ ' ' :: "ABC".toList) = false :=
  ⟨by decide,
   (parseCommandInvocation_spec "na".toList LobbyRegion.NORTH_AMERICA (by decide)).1
     "abcdef".toList (by decide),
   (parseCommandInvocation_spec "na".toList LobbyRegion.NORTH_AMERICA (by decide)).2
     "ABC".toList (by decide) (by decide)⟩

/-! ## The membership index (`VOICE_CHANNEL_USERS`, `listeners.ts`)

Member and channel identifiers are opaque snowflake strings in the
source; we carry them as naturals.  The JS `Map` keeps keys in insertion
order and `set` overwrites an existing key in place, so we model it as
an association list with exactly that update. -/

abbrev MemberId := Nat
abbrev ChannelId := Nat

abbrev Index := List (ChannelId × List MemberId)

def mapGet (idx : Index) (k : ChannelId) : Option (List MemberId) :=
  match idx with
  | [] => none
  | (k', v) :: rest => if k' = k then some v else mapGet rest k

def mapSet (idx : Index) (k : ChannelId) (v : List MemberId) : Index :=
  match idx with
  | [] => [(k, v)]
  | (k', v') :: rest =>
    if k' = k then (k, v) :: rest else (k', v') :: mapSet rest k v

/-- `getMembersInChannel` (`listeners.ts:56-58`):
`VOICE_CHANNEL_USERS.get(channel) || []`. -/
def getMembersInChannel (idx : Index) (c : ChannelId) : List MemberId :=
  (mapGet idx c).getD []

/-- The index update of `onVoiceJoin` (`listeners.ts:14`):
`set(id, [...(get(id) || []), member.id])` — an unconditional append. -/
def joinIndex (idx : Index) (m : MemberId) (c : ChannelId) : Index :=
  mapSet idx c (getMembersInChannel idx c ++ [m])

/-- `onVoiceLeave` (`listeners.ts:41-49`): look the channel up; if the
member is absent (`indexOf === -1`) do nothing, otherwise splice out the
first occurrence. -/
def leaveIndex (idx : Index) (m : MemberId) (c : ChannelId) : Index :=
  match mapGet idx c with
  | none => idx
  | some users => if m ∈ users then mapSet idx c (users.erase m) else idx

lemma mapGet_mapSet_self (idx : Index) (k : ChannelId) (v : List MemberId) :
    mapGet (mapSet idx k v) k = some v := by
  induction idx with
  | nil => simp [mapGet, mapSet]
  | cons p rest ih =>
    obtain ⟨k', v'⟩ := p
    by_cases h : k' = k <;> simp [mapGet, mapSet, h, ih]

lemma mapGet_mapSet_ne (idx : Index) (k k' : ChannelId) (v : List MemberId)
    (h : k' ≠ k) : mapGet (mapSet idx k v) k' = mapGet idx k' := by
  induction idx with
  | nil => simp [mapGet, mapSet, Ne.symm h]
  | cons p rest ih =>
    obtain ⟨k₀, v₀⟩ := p
    by_cases h0 : k₀ = k
    · subst h0
      simp [mapGet, mapSet, Ne.symm h]
    · by_cases h1 : k₀ = k'
      · subst h1
        simp [mapGet, mapSet, h0]
      · simp [mapGet, mapSet, h0, h1, ih]

lemma mem_mapSet (idx : Index) (k : ChannelId) (v : List MemberId)
    (p : ChannelId × List MemberId) (hp : p ∈ mapSet idx k v) :
    p = (k, v) ∨ p ∈ idx := by
  induction idx with
  | nil => simpa [mapSet] using hp
  | cons q rest ih =>
    obtain ⟨k₀, v₀⟩ := q
    by_cases h0 : k₀ = k
    · simp only [mapSet, h0, if_true, List.mem_cons] at hp
      rcases hp with rfl | hp
      · exact Or.inl rfl
      · exact Or.inr (List.mem_cons_of_mem _ hp)
    · simp only [mapSet, h0, if_false, List.mem_cons] at hp
      rcases hp with rfl | hp
      · exact Or.inr (List.mem_cons_self _ _)
      · rcases ih hp with h | h
        · exact Or.inl h
        · exact Or.inr (List.mem_cons_of_mem _ h)

lemma mapGet_mem (idx : Index) (k : ChannelId) (v : List MemberId)
    (h : mapGet idx k = some v) : (k, v) ∈ idx := by
  induction idx with
  | nil => simp [mapGet] at h
  | cons p rest ih =>
    obtain ⟨k₀, v₀⟩ := p
    by_cases h0 : k₀ = k
    · subst h0
      simp only [mapGet, if_true] at h
      cases h
      exact List.mem_cons_self _ _
    · simp only [mapGet, h0, if_false] at h
      exact List.mem_cons_of_mem _ (ih h)

lemma getMembers_joinIndex_self (idx : Index) (m : MemberId) (c : ChannelId) :
    getMembersInChannel (joinIndex idx m c) c = getMembersInChannel idx c ++ [m] := by
  simp [getMembersInChannel, joinIndex, mapGet_mapSet_self]

lemma getMembers_joinIndex_ne (idx : Index) (m : MemberId) (c c' : ChannelId)
    (h : c' ≠ c) :
    getMembersInChannel (joinIndex idx m c) c' = getMembersInChannel idx c' := by
  simp [getMembersInChannel, joinIndex, mapGet_mapSet_ne _ _ _ _ h]

lemma getMembers_leaveIndex_self (idx : Index) (m : MemberId) (c : ChannelId) :
    getMembersInChannel (leaveIndex idx m c) c = (getMembersInChannel idx c).erase m := by
  unfold leaveIndex
  cases h : mapGet idx c with
  | none => simp [getMembersInChannel, h]
  | some users =>
    by_cases hm : m ∈ users
    · simp [getMembersInChannel, hm, mapGet_mapSet_self, h]
    · simp [getMembersInChannel, hm, h, List.erase_of_not_mem hm]

lemma getMembers_leaveIndex_ne (idx : Index) (m : MemberId) (c c' : ChannelId)
    (h : c' ≠ c) :
    getMembersInChannel (leaveIndex idx m c) c' = getMembersInChannel idx c' := by
  unfold leaveIndex
  cases hg : mapGet idx c with
  | none => rfl
  | some users =>
    by_cases hm : m ∈ users
    · simp [getMembersInChannel, hm, mapGet_mapSet_ne _ _ _ _ h]
    · simp [hm]

/-! ## Voice-state events -/

/-- The platform voice-state notifications the bot subscribes to.
`move` is `onVoiceChange` (`listeners.ts:51-54`), which runs
`onVoiceLeave` on the old channel and then `onVoiceJoin` on the new. -/
inductive VoiceEvent
  | join (m : MemberId) (c : ChannelId)
  | leave (m : MemberId) (c : ChannelId)
  | move (m : MemberId) (cOld cNew : ChannelId)
deriving DecidableEq, Repr

/-- The effect of one voice event on the membership index. -/
def applyEvent (idx : Index) : VoiceEvent → Index
  | .join m c => joinIndex idx m c
  | .leave m c => leaveIndex idx m c
  | .move m cOld cNew => joinIndex (leaveIndex idx m cOld) m cNew

def applyEvents (idx : Index) : List VoiceEvent → Index
  | [] => idx
  | e :: es => applyEvents (applyEvent idx e) es

/-- A physically possible event: a member only ever joins a channel they
are not currently recorded in (for a move, after leaving the old one). -/
def eventOk (idx : Index) : VoiceEvent → Bool
  | .join m c => !((getMembersInChannel idx c).contains m)
  | .leave _ _ => true
  | .move m cOld cNew =>
    !((getMembersInChannel (leaveIndex idx m cOld) cNew).contains m)

def eventsOk (idx : Index) : List VoiceEvent → Bool
  | [] => true
  | e :: es => eventOk idx e && eventsOk (applyEvent idx e) es

/-- Every channel's entry in the index is duplicate-free. -/
def IndexNodup (idx : Index) : Prop :=
  ∀ p ∈ idx, p.2.Nodup

instance (idx : Index) : Decidable (IndexNodup idx) := by
  unfold IndexNodup
  infer_instance

lemma getMembers_nodup (idx : Index) (c : ChannelId) (h : IndexNodup idx) :
    (getMembersInChannel idx c).Nodup := by
  unfold getMembersInChannel
  cases hg : mapGet idx c with
  | none => simp
  | some users => simpa using h _ (mapGet_mem idx c users hg)

lemma joinIndex_nodup (idx : Index) (m : MemberId) (c : ChannelId)
    (h : IndexNodup idx) (hm : m ∉ getMembersInChannel idx c) :
    IndexNodup (joinIndex idx m c) := by
  intro p hp
  rcases mem_mapSet _ _ _ _ hp with rfl | hp
  · simpa [List.nodup_append] using ⟨getMembers_nodup idx c h, hm⟩
  · exact h p hp

lemma leaveIndex_nodup (idx : Index) (m : MemberId) (c : ChannelId)
    (h : IndexNodup idx) : IndexNodup (leaveIndex idx m c) := by
  unfold leaveIndex
  cases hg : mapGet idx c with
  | none => exact h
  | some users =>
    by_cases hm : m ∈ users
    · simp only [hm, if_true]
      intro p hp
      rcases mem_mapSet _ _ _ _ hp with rfl | hp
      · exact (h _ (mapGet_mem idx c users hg)).erase m
      · exact h p hp
    · simpa [hm] using h

lemma applyEvent_nodup (idx : Index) (e : VoiceEvent)
    (h : IndexNodup idx) (he : eventOk idx e = true) :
    IndexNodup (applyEvent idx e) := by
  cases e with
  | join m c =>
    simp only [eventOk] at he
    exact joinIndex_nodup idx m c h (by simpa using he)
  | leave m c => exact leaveIndex_nodup idx m c h
  | move m cOld cNew =>
    simp only [eventOk] at he
    exact joinIndex_nodup _ m cNew (leaveIndex_nodup idx m cOld h) (by simpa using he)

/-- C2 (counterexample): the join handler appends unconditionally — it
does not check whether the member is already present.  Two joins of
member 7 to channel 1 (with no leave in between) leave the entry
`[7, 7]`, a duplicate. -/
theorem onVoiceJoin_appends_unconditionally :
    getMembersInChannel (applyEvents [] [.join 7 1, .join 7 1]) 1 = [7, 7] ∧
    ¬ (getMembersInChannel (applyEvents [] [.join 7 1, .join 7 1]) 1).Nodup := by
  exact ⟨by rfl, by decide⟩

/-- C2 (amended): the join handler appends the member unconditionally, so
a duplicate appears exactly when a join arrives for a member already
recorded in that channel.  Over event sequences in which every join is
for a member not currently recorded in the target channel — which is
every physically possible sequence of join, leave and move events — no
channel's entry ever accumulates a duplicate. -/
theorem membershipIndex_nodup (idx : Index) (evs : List VoiceEvent)
    (h0 : IndexNodup idx) (hok : eventsOk idx evs = true) :
    IndexNodup (applyEvents idx evs) := by
  induction evs generalizing idx with
  | nil => exact h0
  | cons e es ih =>
    simp only [eventsOk, Bool.and_eq_true] at hok
    exact ih (applyEvent idx e) (applyEvent_nodup idx e h0 hok.1) hok.2

/-- C2 (witness): a join, a move and a second join of the same member,
all physically possible, preserve duplicate-freedom. -/
theorem membershipIndex_nodup_witness :
    IndexNodup ([] : Index) ∧
    eventsOk [] [.join 4 1, .move 4 1 2, .join 5 1, .leave 5 1] = true ∧
    IndexNodup (applyEvents [] [.join 4 1, .move 4 1 2, .join 5 1, .leave 5 1]) :=
  ⟨by decide, by decide,
   membershipIndex_nodup [] [.join 4 1, .move 4 1 2, .join 5 1, .leave 5 1]
     (by decide) (by decide)⟩

/-! ## Sessions and session channels (`database/`, `constants.ts`) -/

/-- Session lifecycle states.  `LOBBY`, `PLAYING` and `DISCUSSING` are the
states the code under `src/` reads and writes.  Modelled from the spec:
`constants.ts` itself is not under `src/`; §4.1 lists the full state set
`{LOBBY, PLAYING, DISCUSSING, ENDED}` with `ENDED` terminal. -/
inductive SessionState
  | LOBBY
  | PLAYING
  | DISCUSSING
  | ENDED
deriving DecidableEq, Repr

/-- `SessionChannelType` from `database/session-channel.ts` (the four
role tags used throughout `actions.ts` and `listeners.ts`). -/
inductive SessionChannelType
  | CATEGORY
  | TALKING
  | SILENCE
  | ADMIN_SILENCE
deriving DecidableEq, Repr

/-- A `SessionChannel` record: platform channel id plus role tag. -/
structure SessionChannel where
  channelId : ChannelId
  type : SessionChannelType
deriving DecidableEq, Repr

/-- Modelled from the spec: `SILENCE_CHANNELS`, exported by
`database/session-channel.ts` (not under `src/`); §4.2 defines the
silence-typed channels as SILENCE and all ADMIN_SILENCE channels. -/
def SILENCE_CHANNELS : List SessionChannelType :=
  [.SILENCE, .ADMIN_SILENCE]

/-- An `AmongUsSession` record with its owned channels loaded. -/
structure AmongUsSession where
  guild : Nat
  channel : ChannelId
  message : Nat
  user : String
  state : SessionState
  region : LobbyRegion
  lobbyCode : List Char
  channels : List SessionChannel
deriving DecidableEq, Repr

/-- The database query in `onVoiceJoin` (`listeners.ts:17-24`):
`findOne(SessionChannel, { channelId, type: TALKING }, ["session"])` — the
first session owning a TALKING channel with this platform id. -/
def findTalkingSession (sessions : List AmongUsSession) (c : ChannelId) :
    Option AmongUsSession :=
  sessions.find? (fun s =>
    s.channels.any (fun ch => ch.channelId == c && ch.type == .TALKING))

/-- `onVoiceJoin` (`listeners.ts:13-39`): record the member in the index;
if the joined channel is the TALKING channel of a PLAYING session, issue
an `editMember` moving the member to that session's SILENCE channel.
Returns the updated index and the issued move target, if any.  (On a
session without a SILENCE channel the source would crash on the `!`
assertion; we return no move.) -/
def onVoiceJoin (sessions : List AmongUsSession) (idx : Index)
    (m : MemberId) (c : ChannelId) : Index × Option ChannelId :=
  let idx' := joinIndex idx m c
  match findTalkingSession sessions c with
  | none => (idx', none)
  | some sess =>
    if sess.state = .PLAYING then
      match sess.channels.find? (fun ch => ch.type == .SILENCE) with
      | some playingChannel => (idx', some playingChannel.channelId)
      | none => (idx', none)
    else (idx', none)

/-- A voice join together with the platform's echo of the move the
handler issues: a successful `editMember` makes the platform emit a
voice-state change for the member, which `onVoiceChange`
(`listeners.ts:51-54`) processes as a leave from the old channel followed
by the join handler on the new one. -/
def processJoin (sessions : List AmongUsSession) (idx : Index)
    (m : MemberId) (c : ChannelId) : Index :=
  match onVoiceJoin sessions idx m c with
  | (idx', none) => idx'
  | (idx', some target) =>
    (onVoiceJoin sessions (leaveIndex idx' m c) m target).1

/-- C7: a member joining the TALKING channel of a PLAYING session is
moved to the session's SILENCE channel; once the move's voice-state echo
is processed, the Membership Index records the member under the SILENCE
channel and no longer under the TALKING channel. -/
theorem join_during_playing_lands_in_silence
    (sessions : List AmongUsSession) (idx : Index) (m : MemberId)
    (t : ChannelId) (sess : AmongUsSession) (v : SessionChannel)
    (hfind : findTalkingSession sessions t = some sess)
    (hstate : sess.state = .PLAYING)
    (hsil : sess.channels.find? (fun ch => ch.type == .SILENCE) = some v)
    (hvt : v.channelId ≠ t)
    (hnotin : m ∉ getMembersInChannel idx t) :
    m ∈ getMembersInChannel (processJoin sessions idx m t) v.channelId ∧
    m ∉ getMembersInChannel (processJoin sessions idx m t) t := by
  have hrun : processJoin sessions idx m t
      = joinIndex (leaveIndex (joinIndex idx m t) m t) m v.channelId := by
    unfold processJoin onVoiceJoin
    rw [hfind]
    simp only [hstate, if_true, hsil]
    cases hF : findTalkingSession sessions v.channelId with
    | none => rfl
    | some s2 =>
      by_cases hs2 : s2.state = .PLAYING
      · simp only [hs2, if_true]
        cases hf2 : s2.channels.find? (fun ch => ch.type == .SILENCE) <;> rfl
      · simp [hs2]
  have hleave : getMembersInChannel (leaveIndex (joinIndex idx m t) m t) t
      = getMembersInChannel idx t := by
    rw [getMembers_leaveIndex_self, getMembers_joinIndex_self,
      List.erase_append_right _ hnotin]
    simp
  constructor
  · rw [hrun, getMembers_joinIndex_self]
    simp
  · rw [hrun, getMembers_joinIndex_ne _ _ _ _ (Ne.symm hvt), hleave]
    exact hnotin

/-- A concrete PLAYING session: TALKING channel 10, SILENCE channel 11. -/
def demoPlayingSession : AmongUsSession :=
  { guild := 1, channel := 2, message := 3, user := "host",
    state := .PLAYING, region := .EUROPE, lobbyCode := "ABCDEF".toList,
    channels := [⟨9, .CATEGORY⟩, ⟨10, .TALKING⟩, ⟨11, .SILENCE⟩] }

/-- C7 (witness): member 5 joins channel 10 of `demoPlayingSession` and
ends up recorded under channel 11, not under channel 10. -/
theorem join_during_playing_witness :
    (5 : MemberId) ∈ getMembersInChannel (processJoin [demoPlayingSession] [] 5 10) 11 ∧
    (5 : MemberId) ∉ getMembersInChannel (processJoin [demoPlayingSession] [] 5 10) 10 :=
  join_during_playing_lands_in_silence [demoPlayingSession] [] 5 10
    demoPlayingSession ⟨11, .SILENCE⟩ (by decide) (by decide) (by decide)
    (by decide) (by decide)

/-! ## Platform calls and the reconciler (`actions.ts`)

Calls into the Discord client are recorded in a log.  A boolean oracle
`moveOk` decides which member moves the platform accepts (a rejected
`editGuildMember` models a rejected promise: the member left in the
meantime, etc.).  A successful move makes the platform emit the member's
voice-state change, which the bot's `onVoiceChange` handler folds into
the membership index (leave the old channel, join the new one); during
reconciliation these echoed joins land on non-TALKING channels or arrive
while the session is not PLAYING, so only the index update of the join
handler fires. -/

/-- Which status-message template `editMessage` writes
(`actions.ts:166-263`); the embed contents are presentation only. -/
inductive MessageVariant
  | connectError
  | sessionOver
  | stale
  | lobby
  | playing
deriving DecidableEq, Repr

/-- One call into the Discord client. -/
inductive BotCall
  | deleteChannel (c : ChannelId)
  | editMessage (chan : ChannelId) (msg : Nat) (v : MessageVariant)
  | createMessage (chan : ChannelId)
  | createChannel (c : ChannelId) (parent : ChannelId)
  | editGuildMember (guild : Nat) (m : MemberId) (target : ChannelId)
deriving DecidableEq, Repr

/-- The bot-side state threaded through the reconciler: the membership
index, the log of platform calls made so far, and the next fresh channel
id the platform will hand out. -/
structure BotState where
  idx : Index
  calls : List BotCall
  nextId : ChannelId
deriving DecidableEq, Repr

/-- The channel currently recording the member, used as the old channel
of the voice-state change echoed for a successful move. -/
def findChannelOf (idx : Index) (m : MemberId) : Option ChannelId :=
  (idx.find? (fun p => p.2.contains m)).map (·.1)

/-- The index effect of the voice-state echo of a successful move. -/
def echoMove (idx : Index) (m : MemberId) (tgt : ChannelId) : Index :=
  match findChannelOf idx m with
  | some old => joinIndex (leaveIndex idx m old) m tgt
  | none => joinIndex idx m tgt

/-- One member move inside a `Promise.all` batch: the call is issued
unconditionally; on success its echo updates the index; the composite
flag records whether every move so far succeeded. -/
def moveOne (moveOk : MemberId → Bool) (g : Nat) (tgt : ChannelId)
    (st : BotState × Bool) (m : MemberId) : BotState × Bool :=
  ({ st.1 with
      calls := st.1.calls ++ [.editGuildMember g m tgt],
      idx := if moveOk m then echoMove st.1.idx m tgt else st.1.idx },
   st.2 && moveOk m)

/-- `Promise.all(members.map(x => bot.editGuildMember(...)))`
(`actions.ts:75-81` and `actions.ts:152-158`): every promise is created
before any is awaited, so every member's move is issued; the composite
rejects iff any individual move rejects. -/
def moveBatch (moveOk : MemberId → Bool) (g : Nat) (members : List MemberId)
    (tgt : ChannelId) (st : BotState) : BotState × Bool :=
  members.foldl (moveOne moveOk g tgt) (st, true)

/-- `moveAllPlayers` (`actions.ts:74-82`): move everybody the index
records in `idFrom` to `idTo`. -/
def moveAllPlayers (moveOk : MemberId → Bool) (sess : AmongUsSession)
    (idFrom idTo : ChannelId) (st : BotState) : BotState × Bool :=
  moveBatch moveOk sess.guild (getMembersInChannel st.idx idFrom) idTo st

/-- `movePlayersToTalkingChannel` (`actions.ts:88-95`): move the members
of every silence-typed channel to the TALKING channel.  Returns `none`
where the source would crash on the `!` assertion (no TALKING channel). -/
def movePlayersToTalkingChannel (moveOk : MemberId → Bool)
    (sess : AmongUsSession) (st : BotState) : Option (BotState × Bool) :=
  match sess.channels.find? (fun ch => ch.type == .TALKING) with
  | none => none
  | some talkingChannel =>
    let silenceChannels := sess.channels.filter
      (fun ch => SILENCE_CHANNELS.contains ch.type)
    some (silenceChannels.foldl
      (fun acc ch =>
        let r := moveAllPlayers moveOk sess ch.channelId talkingChannel.channelId acc.1
        (r.1, acc.2 && r.2))
      (st, true))

/-- `Array.prototype.pop`: take from the end. -/
def jsPop (l : List SessionChannel) : Option SessionChannel × List SessionChannel :=
  (l.getLast?, l.dropLast)

/-- The `for (const adminId of adminPlayersInTalkingChannel)` loop of
`movePlayersToSilenceChannel` (`actions.ts:117-149`): pop a free admin
channel and move the administrator there, or send the explanatory
notice, create a fresh ADMIN_SILENCE channel under the category, record
it on the session, and move the administrator into it.  Each move is
awaited: a rejected move throws, aborting the loop (flag `false`). -/
def adminLoop (moveOk : MemberId → Bool) (guild : Nat)
    (statusChan categoryId : ChannelId) :
    List MemberId → List SessionChannel → List SessionChannel → BotState →
    List SessionChannel × BotState × Bool
  | [], _empties, chans, st => (chans, st, true)
  | adminId :: rest, empties, chans, st =>
    match jsPop empties with
    | (some ch, empties') =>
      let st' : BotState :=
        { st with
            calls := st.calls ++ [.editGuildMember guild adminId ch.channelId],
            idx := if moveOk adminId then echoMove st.idx adminId ch.channelId
                   else st.idx }
      if moveOk adminId then
        adminLoop moveOk guild statusChan categoryId rest empties' chans st'
      else (chans, st', false)
    | (none, _) =>
      let newId := st.nextId
      let st' : BotState :=
        { idx := if moveOk adminId then echoMove st.idx adminId newId else st.idx,
          calls := st.calls ++ [.createMessage statusChan,
            .createChannel newId categoryId,
            .editGuildMember guild adminId newId],
          nextId := newId + 1 }
      let chans' := chans ++ [⟨newId, .ADMIN_SILENCE⟩]
      if moveOk adminId then
        adminLoop moveOk guild statusChan categoryId rest [] chans' st'
      else (chans', st', false)

/-- `movePlayersToSilenceChannel` (`actions.ts:101-159`): split the
TALKING channel's members into administrators and the rest, give each
administrator a free or fresh ADMIN_SILENCE channel (sequentially), then
move the rest to the SILENCE channel in one batch.  `isMemberAdmin` is
the external administrator predicate imported from `listeners.ts` (its
definition is not under `src/`; the spec calls it "an external predicate
over member identifiers").  Returns `none` where the source would crash
on a `!` assertion. -/
def movePlayersToSilenceChannel (moveOk isMemberAdmin : MemberId → Bool)
    (sess : AmongUsSession) (st : BotState) :
    Option (AmongUsSession × BotState × Bool) :=
  match sess.channels.find? (fun ch => ch.type == .CATEGORY),
      sess.channels.find? (fun ch => ch.type == .TALKING),
      sess.channels.find? (fun ch => ch.type == .SILENCE) with
  | some categoryChannel, some talkingChannel, some silenceChannel =>
    let playersInTalkingChannel := getMembersInChannel st.idx talkingChannel.channelId
    let normalPlayersInTalkingChannel :=
      playersInTalkingChannel.filter (fun x => !(isMemberAdmin x))
    let adminPlayersInTalkingChannel := playersInTalkingChannel.filter isMemberAdmin
    let emptyAdminChannels := sess.channels.filter
      (fun ch => ch.type == .ADMIN_SILENCE &&
        (getMembersInChannel st.idx ch.channelId).length == 0)
    let r := adminLoop moveOk sess.guild sess.channel categoryChannel.channelId
      adminPlayersInTalkingChannel emptyAdminChannels [] st
    let sess' := { sess with channels := sess.channels ++ r.1 }
    if r.2.2 then
      let b := moveBatch moveOk sess.guild normalPlayersInTalkingChannel
        silenceChannel.channelId r.2.1
      some (sess', b.1, b.2)
    else
      some (sess', r.2.1, false)
  | _, _, _ => none

/-! ## Session cleanup and the status presenter (`actions.ts`) -/

/-- `updateMessageWithSessionStale` (`actions.ts:196-204`): one
`editMessage` rewriting the status message to the stale terminal
variant. -/
def updateMessageWithSessionStale (sess : AmongUsSession) : List BotCall :=
  [.editMessage sess.channel sess.message .stale]

/-- The `for (const channel of session.channels)` deletion loop of
`cleanUpSession` (`actions.ts:63-65`): each `deleteChannel` is awaited
with no catch, so the first rejected deletion throws out of the loop. -/
def deleteChannelsLoop (deleteOk : ChannelId → Bool) :
    List SessionChannel → List BotCall × Bool
  | [] => ([], true)
  | ch :: rest =>
    if deleteOk ch.channelId then
      let r := deleteChannelsLoop deleteOk rest
      (.deleteChannel ch.channelId :: r.1, r.2)
    else
      ([.deleteChannel ch.channelId], false)

/-- `cleanUpSession` (`actions.ts:61-69`): delete every session channel,
rewrite the status message to the stale variant, then remove the record
(`removeAndFlush`).  The boolean records whether the record was removed;
an uncaught deletion failure aborts before the rewrite and removal. -/
def cleanUpSession (deleteOk : ChannelId → Bool) (sess : AmongUsSession) :
    List BotCall × Bool :=
  let r := deleteChannelsLoop deleteOk sess.channels
  if r.2 then (r.1 ++ updateMessageWithSessionStale sess, true)
  else (r.1, false)

/-- `cleanUpOldSessions` (`actions.ts:51-56`): find every persisted
session and clean each up in turn; an exception from one session's
cleanup propagates out of the loop, leaving that session and the
remaining ones in the store.  Returns the calls made and the store
afterwards. -/
def cleanUpOldSessions (deleteOk : ChannelId → Bool) :
    List AmongUsSession → List BotCall × List AmongUsSession
  | [] => ([], [])
  | sess :: rest =>
    let r := cleanUpSession deleteOk sess
    if r.2 then
      let r' := cleanUpOldSessions deleteOk rest
      (r.1 ++ r'.1, r'.2)
    else
      (r.1, sess :: rest)

/-- Modelled from the spec: the startup sequence (§4.6).  The entry point
under `src/` only connects the database and the bot; the wiring that
runs the recovery on process start is not under `src/`.  Per §4.6 it
applies `cleanUpOldSessions` to the persisted store. -/
def startupCleanup (deleteOk : ChannelId → Bool)
    (store : List AmongUsSession) : List BotCall × List AmongUsSession :=
  cleanUpOldSessions deleteOk store

/-- `updateMessage` (`actions.ts:211-219`): LOBBY renders the lobby
template, PLAYING and DISCUSSING render the in-game template, and any
other state performs no platform call at all. -/
def updateMessage (sess : AmongUsSession) : List BotCall :=
  (if sess.state = .LOBBY then
    [BotCall.editMessage sess.channel sess.message .lobby]
   else []) ++
  (if sess.state = .PLAYING ∨ sess.state = .DISCUSSING then
    [BotCall.editMessage sess.channel sess.message .playing]
   else [])

/-- Number of status-message rewrites to the stale terminal variant in a
call log. -/
def countStaleEdits (calls : List BotCall) : Nat :=
  calls.countP (fun c =>
    match c with
    | .editMessage _ _ .stale => true
    | _ => false)

/-- C10: for a session whose state is none of LOBBY, PLAYING and
DISCUSSING — such as one already marked ended — `updateMessage` performs
no platform call at all. -/
theorem updateMessage_skips_other_states (sess : AmongUsSession)
    (h1 : sess.state ≠ .LOBBY) (h2 : sess.state ≠ .PLAYING)
    (h3 : sess.state ≠ .DISCUSSING) :
    updateMessage sess = [] := by
  simp [updateMessage, h1, h2, h3]

/-- C10 (witness): `updateMessage` on an ENDED session edits nothing. -/
theorem updateMessage_skips_other_states_witness :
    updateMessage { demoPlayingSession with state := .ENDED } = [] :=
  updateMessage_skips_other_states { demoPlayingSession with state := .ENDED }
    (by decide) (by decide) (by decide)

/-! ### Startup cleanup (C3, C8) -/

lemma deleteChannelsLoop_all_ok (deleteOk : ChannelId → Bool)
    (chans : List SessionChannel)
    (h : ∀ ch ∈ chans, deleteOk ch.channelId = true) :
    deleteChannelsLoop deleteOk chans
      = (chans.map (fun ch => .deleteChannel ch.channelId), true) := by
  induction chans with
  | nil => rfl
  | cons ch rest ih =>
    have hch := h ch (List.mem_cons_self _ _)
    simp only [deleteChannelsLoop, hch, if_true,
      ih (fun c hc => h c (List.mem_cons_of_mem _ hc)), List.map_cons]

lemma cleanUpSession_all_ok (deleteOk : ChannelId → Bool)
    (sess : AmongUsSession)
    (h : ∀ ch ∈ sess.channels, deleteOk ch.channelId = true) :
    cleanUpSession deleteOk sess
      = (sess.channels.map (fun ch => .deleteChannel ch.channelId)
          ++ [.editMessage sess.channel sess.message .stale], true) := by
  unfold cleanUpSession
  rw [deleteChannelsLoop_all_ok deleteOk sess.channels h]
  rfl

lemma countStaleEdits_deletes (chans : List SessionChannel) :
    countStaleEdits (chans.map (fun ch => .deleteChannel ch.channelId)) = 0 := by
  unfold countStaleEdits
  rw [List.countP_eq_zero]
  intro c hc
  obtain ⟨ch, _, rfl⟩ := List.mem_map.mp hc
  simp

/-- C3: startup cleanup over a store of N persisted sessions deletes
every session channel, rewrites exactly N status messages to the stale
terminal variant, and removes all N records, leaving an empty store.
(The startup wiring itself is modelled from spec §4.6; the loop
`cleanUpOldSessions` and per-session `cleanUpSession` are from the
source.) -/
theorem startup_cleanup_spec (deleteOk : ChannelId → Bool)
    (store : List AmongUsSession)
    (hdel : ∀ c, deleteOk c = true) :
    (startupCleanup deleteOk store).2 = [] ∧
    countStaleEdits (startupCleanup deleteOk store).1 = store.length ∧
    ∀ s ∈ store, ∀ ch ∈ s.channels,
      BotCall.deleteChannel ch.channelId ∈ (startupCleanup deleteOk store).1 := by
  unfold startupCleanup
  induction store with
  | nil => exact ⟨rfl, rfl, by simp⟩
  | cons sess rest ih =>
    have hsess := cleanUpSession_all_ok deleteOk sess (fun ch _ => hdel ch.channelId)
    simp only [cleanUpOldSessions, hsess, eq_self_iff_true, if_true]
    refine ⟨ih.1, ?_, ?_⟩
    · have hz := countStaleEdits_deletes sess.channels
      have hone : countStaleEdits
          [BotCall.editMessage sess.channel sess.message .stale] = 1 := rfl
      simp only [countStaleEdits] at hz hone ih ⊢
      simp only [List.countP_append, hz, hone, ih.2.1, List.length_cons]
      omega
    · intro s hs ch hch
      rcases List.mem_cons.mp hs with rfl | hs
      · exact List.mem_append_left _
          (List.mem_append_left _ (List.mem_map_of_mem _ hch))
      · exact List.mem_append_right _ (ih.2.2 s hs ch hch)

/-- A concrete session with two channels, for cleanup scenarios. -/
def demoCleanup : AmongUsSession :=
  { guild := 1, channel := 2, message := 3, user := "host",
    state := .PLAYING, region := .EUROPE, lobbyCode := "ABCDEF".toList,
    channels := [⟨21, .TALKING⟩, ⟨22, .SILENCE⟩] }

/-- C3 (witness): two persisted sessions are both cleaned: two stale
rewrites, empty store, every channel deleted. -/
theorem startup_cleanup_spec_witness :
    (startupCleanup (fun _ => true) [demoPlayingSession, demoCleanup]).2 = [] ∧
    countStaleEdits
      (startupCleanup (fun _ => true) [demoPlayingSession, demoCleanup]).1 = 2 ∧
    ∀ s ∈ [demoPlayingSession, demoCleanup], ∀ ch ∈ s.channels,
      BotCall.deleteChannel ch.channelId ∈
        (startupCleanup (fun _ => true) [demoPlayingSession, demoCleanup]).1 :=
  startup_cleanup_spec (fun _ => true) [demoPlayingSession, demoCleanup]
    (fun _ => rfl)

/-- C8 (counterexample): `cleanUpSession` does not swallow a failed
channel deletion.  On `demoCleanup` (channels 21 and 22), when the
platform rejects deleting channel 21, channel 22 is never attempted, the
status message is not rewritten, and the record is not removed — the
failure aborts the cleanup instead of being swallowed. -/
theorem cleanup_deletion_failure_aborts :
    cleanUpSession (fun c => !(c == 21)) demoCleanup
      = ([.deleteChannel 21], false) ∧
    BotCall.deleteChannel 22 ∉ (cleanUpSession (fun c => !(c == 21)) demoCleanup).1 ∧
    countStaleEdits (cleanUpSession (fun c => !(c == 21)) demoCleanup).1 = 0 :=
  ⟨by rfl, by decide, by rfl⟩

lemma deleteChannelsLoop_first_fail (deleteOk : ChannelId → Bool)
    (pre : List SessionChannel) (ch : SessionChannel) (post : List SessionChannel)
    (hpre : ∀ c ∈ pre, deleteOk c.channelId = true)
    (hch : deleteOk ch.channelId = false) :
    deleteChannelsLoop deleteOk (pre ++ ch :: post)
      = (pre.map (fun c => .deleteChannel c.channelId)
          ++ [.deleteChannel ch.channelId], false) := by
  induction pre with
  | nil => simp [deleteChannelsLoop, hch]
  | cons c rest ih =>
    have hc := hpre c (List.mem_cons_self _ _)
    have ih' := ih (fun x hx => hpre x (List.mem_cons_of_mem _ hx))
    have hstep : (c :: rest) ++ ch :: post = c :: (rest ++ ch :: post) := rfl
    rw [hstep]
    simp only [deleteChannelsLoop, hc, if_true]
    rw [ih']
    simp

/-- C8 (amended): every session channel is subject to a deletion attempt
in order only until the first failure.  When every deletion succeeds,
all deletion attempts complete before the record is removed (the call
log is exactly the deletions followed by the stale rewrite, and the
record is removed).  A failed deletion is not swallowed: it aborts the
cleanup — later channels are not attempted, the message is not
rewritten, and the record is not removed. -/
theorem cleanUpSession_spec (deleteOk : ChannelId → Bool)
    (sess : AmongUsSession) :
    ((∀ ch ∈ sess.channels, deleteOk ch.channelId = true) →
      cleanUpSession deleteOk sess
        = (sess.channels.map (fun ch => .deleteChannel ch.channelId)
            ++ [.editMessage sess.channel sess.message .stale], true)) ∧
    (∀ pre ch post, sess.channels = pre ++ ch :: post →
      (∀ c ∈ pre, deleteOk c.channelId = true) →
      deleteOk ch.channelId = false →
      cleanUpSession deleteOk sess
        = (pre.map (fun c => .deleteChannel c.channelId)
            ++ [.deleteChannel ch.channelId], false)) := by
  constructor
  · exact fun h => cleanUpSession_all_ok deleteOk sess h
  · intro pre ch post hsplit hpre hch
    unfold cleanUpSession
    rw [hsplit, deleteChannelsLoop_first_fail deleteOk pre ch post hpre hch]
    simp

/-- C8 (witness): the amended cleanup theorem at `demoCleanup`, with an
all-accepting platform and with a platform rejecting channel 21. -/
theorem cleanUpSession_spec_witness :
    cleanUpSession (fun _ => true) demoCleanup
      = ([.deleteChannel 21, .deleteChannel 22,
          .editMessage 2 3 .stale], true) ∧
    cleanUpSession (fun c => !(c == 21)) demoCleanup
      = ([.deleteChannel 21], false) :=
  ⟨(cleanUpSession_spec (fun _ => true) demoCleanup).1 (fun _ _ => rfl),
   (cleanUpSession_spec (fun c => !(c == 21)) demoCleanup).2
     [] ⟨21, .TALKING⟩ [⟨22, .SILENCE⟩] (by decide) (by decide) (by decide)⟩

/-! ### Batch move failure semantics (C4) -/

lemma moveFold_calls (moveOk : MemberId → Bool) (g : Nat) (tgt : ChannelId)
    (members : List MemberId) :
    ∀ (st : BotState) (ok : Bool),
    (members.foldl (moveOne moveOk g tgt) (st, ok)).1.calls
      = st.calls ++ members.map (fun m => BotCall.editGuildMember g m tgt) := by
  induction members with
  | nil => intro st ok; simp
  | cons m rest ih =>
    intro st ok
    simp only [List.foldl_cons, moveOne, List.map_cons]
    rw [ih]
    simp

lemma moveFold_ok (moveOk : MemberId → Bool) (g : Nat) (tgt : ChannelId)
    (members : List MemberId) :
    ∀ (st : BotState) (ok : Bool),
    (members.foldl (moveOne moveOk g tgt) (st, ok)).2
      = (ok && members.all moveOk) := by
  induction members with
  | nil => intro st ok; simp
  | cons m rest ih =>
    intro st ok
    simp only [List.foldl_cons, moveOne, List.all_cons]
    rw [ih]
    simp [Bool.and_assoc]

lemma moveBatch_calls (moveOk : MemberId → Bool) (g : Nat)
    (members : List MemberId) (tgt : ChannelId) (st : BotState) :
    (moveBatch moveOk g members tgt st).1.calls
      = st.calls ++ members.map (fun m => BotCall.editGuildMember g m tgt) :=
  moveFold_calls moveOk g tgt members st true

lemma moveBatch_flag (moveOk : MemberId → Bool) (g : Nat)
    (members : List MemberId) (tgt : ChannelId) (st : BotState) :
    (moveBatch moveOk g members tgt st).2 = members.all moveOk := by
  unfold moveBatch
  rw [moveFold_ok]
  simp

/-- C4 (amended): in a batch reconciliation every member's move is
issued regardless of which moves the platform rejects — the issued calls
do not depend on the failure oracle at all — but a per-member failure is
not merely reported: the composite operation fails (the `Promise.all`
rejection propagates out) exactly when some member's move was
rejected. -/
theorem moveAllPlayers_spec (moveOk : MemberId → Bool) (sess : AmongUsSession)
    (idFrom idTo : ChannelId) (st : BotState) :
    (moveAllPlayers moveOk sess idFrom idTo st).1.calls
      = st.calls ++ (getMembersInChannel st.idx idFrom).map
          (fun m => BotCall.editGuildMember sess.guild m idTo) ∧
    (moveAllPlayers moveOk sess idFrom idTo st).2
      = (getMembersInChannel st.idx idFrom).all moveOk := by
  unfold moveAllPlayers moveBatch
  exact ⟨moveFold_calls _ _ _ _ st true, by rw [moveFold_ok]; simp⟩

/-- C4 (counterexample): members 1 and 2 share a silence channel; the
platform rejects member 1's move.  Member 2's move is still issued (the
batch is not cut short), but the reconciliation
`movePlayersToTalkingChannel` as a whole reports failure — the
per-member failure propagates out instead of being swallowed. -/
theorem moveFailure_propagates :
    ∃ r, movePlayersToTalkingChannel (fun m => !(m == 1)) demoPlayingSession
        ⟨[(11, [1, 2])], [], 100⟩ = some r ∧
      r.1.calls = [.editGuildMember 1 1 10, .editGuildMember 1 2 10] ∧
      r.2 = false := by
  refine ⟨_, rfl, by decide, by decide⟩

/-! ### Admin-channel allocation (C5, C6) -/

/-- Number of voice-channel creations in a call log. -/
def countCreates (calls : List BotCall) : Nat :=
  calls.countP (fun c =>
    match c with
    | .createChannel _ _ => true
    | _ => false)

lemma countCreates_append (a b : List BotCall) :
    countCreates (a ++ b) = countCreates a + countCreates b := by
  simp [countCreates, List.countP_append]

lemma jsPop_concat (es : List SessionChannel) (e : SessionChannel) :
    jsPop (es ++ [e]) = (some e, es) := by
  simp [jsPop, List.getLast?_concat, List.dropLast_concat]

lemma jsPop_nil : jsPop [] = (none, []) := rfl

/-- The admin loop, run with an all-accepting platform, creates exactly
`admins.length - empties.length` (truncated) new channels, extends the
session's channel list by that many records, and completes. -/
lemma adminLoop_creates (moveOk : MemberId → Bool) (g : Nat)
    (sc cat : ChannelId) (hok : ∀ m, moveOk m = true) :
    ∀ (admins : List MemberId) (empties chans : List SessionChannel)
      (st : BotState),
    countCreates (adminLoop moveOk g sc cat admins empties chans st).2.1.calls
      = countCreates st.calls + (admins.length - empties.length) ∧
    (adminLoop moveOk g sc cat admins empties chans st).1.length
      = chans.length + (admins.length - empties.length) ∧
    (adminLoop moveOk g sc cat admins empties chans st).2.2 = true := by
  intro admins
  induction admins with
  | nil =>
    intro empties chans st
    exact ⟨by simp [adminLoop], by simp [adminLoop], rfl⟩
  | cons a rest ih =>
    intro empties chans st
    rcases List.eq_nil_or_concat empties with rfl | ⟨es, e, rfl⟩
    · -- no free admin channel: create one
      simp only [adminLoop, jsPop_nil, hok a, if_true]
      obtain ⟨ihc, ihl, ihok⟩ := ih [] (chans ++ [⟨st.nextId, .ADMIN_SILENCE⟩])
        { idx := echoMove st.idx a st.nextId,
          calls := st.calls ++ [.createMessage sc, .createChannel st.nextId cat,
            .editGuildMember g a st.nextId],
          nextId := st.nextId + 1 }
      refine ⟨?_, ?_, ihok⟩
      · rw [ihc]
        have h1 : countCreates (st.calls ++ [BotCall.createMessage sc,
            BotCall.createChannel st.nextId cat,
            BotCall.editGuildMember g a st.nextId])
            = countCreates st.calls + 1 := by
          rw [countCreates_append]
          rfl
        simp only [h1, List.length_cons, List.length_nil]
        omega
      · rw [ihl]
        simp only [List.length_append, List.length_cons, List.length_nil]
        omega
    · -- a free admin channel exists: pop and reuse it
      simp only [List.concat_eq_append, adminLoop, jsPop_concat, hok a, if_true]
      obtain ⟨ihc, ihl, ihok⟩ := ih es chans
        { st with
            calls := st.calls ++ [.editGuildMember g a e.channelId],
            idx := echoMove st.idx a e.channelId }
      refine ⟨?_, ?_, ihok⟩
      · rw [ihc]
        have h0 : countCreates (st.calls ++ [BotCall.editGuildMember g a e.channelId])
            = countCreates st.calls + 0 := by
          rw [countCreates_append]
          rfl
        simp only [h0, List.length_cons, List.length_append, List.length_nil]
        omega
      · rw [ihl]
        simp only [List.length_append, List.length_cons, List.length_nil]
        omega

lemma countCreates_editMap (g : Nat) (tgt : ChannelId) (members : List MemberId) :
    countCreates (members.map (fun m => BotCall.editGuildMember g m tgt)) = 0 := by
  unfold countCreates
  rw [List.countP_eq_zero]
  intro c hc
  obtain ⟨m, _, rfl⟩ := List.mem_map.mp hc
  simp

/-- C5: with k administrators in the talking channel and m ADMIN_SILENCE
channels that are empty per the Membership Index,
`movePlayersToSilenceChannel` reuses free admin channels first and
creates exactly `k - m` (truncated at zero) new ADMIN_SILENCE channels,
extending the session's channel list by exactly that many records. -/
theorem reconcileToSilence_creates (moveOk adminP : MemberId → Bool)
    (sess : AmongUsSession) (st : BotState) (cat talk sil : SessionChannel)
    (hcat : sess.channels.find? (fun ch => ch.type == .CATEGORY) = some cat)
    (htalk : sess.channels.find? (fun ch => ch.type == .TALKING) = some talk)
    (hsil : sess.channels.find? (fun ch => ch.type == .SILENCE) = some sil)
    (hok : ∀ m, moveOk m = true) :
    ∃ sess' st' ok,
      movePlayersToSilenceChannel moveOk adminP sess st = some (sess', st', ok) ∧
      countCreates st'.calls = countCreates st.calls +
        (((getMembersInChannel st.idx talk.channelId).filter adminP).length
          - (sess.channels.filter (fun ch => ch.type == .ADMIN_SILENCE &&
              (getMembersInChannel st.idx ch.channelId).length == 0)).length) ∧
      sess'.channels.length = sess.channels.length +
        (((getMembersInChannel st.idx talk.channelId).filter adminP).length
          - (sess.channels.filter (fun ch => ch.type == .ADMIN_SILENCE &&
              (getMembersInChannel st.idx ch.channelId).length == 0)).length) := by
  obtain ⟨hc, hl, hflag⟩ := adminLoop_creates moveOk sess.guild sess.channel
    cat.channelId hok
    ((getMembersInChannel st.idx talk.channelId).filter adminP)
    (sess.channels.filter (fun ch => ch.type == .ADMIN_SILENCE &&
      (getMembersInChannel st.idx ch.channelId).length == 0)) [] st
  unfold movePlayersToSilenceChannel
  rw [hcat, htalk, hsil]
  simp only [hflag, if_true]
  refine ⟨_, _, _, rfl, ?_, ?_⟩
  · rw [moveBatch_calls, countCreates_append, countCreates_editMap, hc]
    simp
  · simp only [List.length_append, hl]
    simp

/-- A session that already owns one freed ADMIN_SILENCE channel (12). -/
def demoReuseSession : AmongUsSession :=
  { guild := 1, channel := 2, message := 3, user := "host",
    state := .PLAYING, region := .EUROPE, lobbyCode := "ABCDEF".toList,
    channels := [⟨9, .CATEGORY⟩, ⟨10, .TALKING⟩, ⟨11, .SILENCE⟩,
      ⟨12, .ADMIN_SILENCE⟩] }

/-- C5 (witness): with administrators 1 and 2 in the talking channel and
no admin channels, exactly two ADMIN_SILENCE channels are created (ids
100 and 101) and one administrator is moved into each; with one
administrator and one freed admin channel, none is created. -/
theorem reconcileToSilence_creates_witness :
    (∃ sess' st' ok,
      movePlayersToSilenceChannel (fun _ => true) (fun m => m == 1 || m == 2)
        demoPlayingSession ⟨[(10, [1, 2])], [], 100⟩ = some (sess', st', ok) ∧
      countCreates st'.calls = 2 ∧
      sess'.channels.length = 5) ∧
    (∃ sess' st' ok,
      movePlayersToSilenceChannel (fun _ => true) (fun m => m == 1)
        demoReuseSession ⟨[(10, [1]), (12, [])], [], 100⟩ = some (sess', st', ok) ∧
      countCreates st'.calls = 0 ∧
      sess'.channels.length = 4) ∧
    (∃ r, movePlayersToSilenceChannel (fun _ => true) (fun m => m == 1 || m == 2)
        demoPlayingSession ⟨[(10, [1, 2])], [], 100⟩ = some r ∧
      BotCall.editGuildMember 1 1 100 ∈ r.2.1.calls ∧
      BotCall.editGuildMember 1 2 101 ∈ r.2.1.calls) :=
  ⟨reconcileToSilence_creates (fun _ => true) (fun m => m == 1 || m == 2)
      demoPlayingSession ⟨[(10, [1, 2])], [], 100⟩ ⟨9, .CATEGORY⟩ ⟨10, .TALKING⟩
      ⟨11, .SILENCE⟩ rfl rfl rfl (fun _ => rfl),
   reconcileToSilence_creates (fun _ => true) (fun m => m == 1)
      demoReuseSession ⟨[(10, [1]), (12, [])], [], 100⟩ ⟨9, .CATEGORY⟩ ⟨10, .TALKING⟩
      ⟨11, .SILENCE⟩ rfl rfl rfl (fun _ => rfl),
   ⟨_, rfl, by decide, by decide⟩⟩

/-! ### Admin isolation (C6)

Closed-form mirrors of the admin loop: the channel each administrator is
assigned, the channels created, and the calls issued. -/

/-- The channel assigned to each administrator, in processing order. -/
def adminAssign : List MemberId → List SessionChannel → ChannelId →
    List (MemberId × ChannelId)
  | [], _, _ => []
  | a :: rest, empties, nid =>
    match jsPop empties with
    | (some ch, empties') => (a, ch.channelId) :: adminAssign rest empties' nid
    | (none, _) => (a, nid) :: adminAssign rest [] (nid + 1)

/-- The ADMIN_SILENCE channels the loop creates. -/
def createdChans : List MemberId → List SessionChannel → ChannelId →
    List SessionChannel
  | [], _, _ => []
  | _ :: rest, empties, nid =>
    match jsPop empties with
    | (some _, empties') => createdChans rest empties' nid
    | (none, _) => ⟨nid, .ADMIN_SILENCE⟩ :: createdChans rest [] (nid + 1)

/-- The calls the loop issues. -/
def adminCallsOf (g : Nat) (sc cat : ChannelId) :
    List MemberId → List SessionChannel → ChannelId → List BotCall
  | [], _, _ => []
  | a :: rest, empties, nid =>
    match jsPop empties with
    | (some ch, empties') =>
      .editGuildMember g a ch.channelId :: adminCallsOf g sc cat rest empties' nid
    | (none, _) =>
      .createMessage sc :: .createChannel nid cat :: .editGuildMember g a nid ::
        adminCallsOf g sc cat rest [] (nid + 1)

/-- With an all-accepting platform, the admin loop's channel additions
and call log are exactly the closed-form mirrors, and it completes. -/
lemma adminLoop_closed (moveOk : MemberId → Bool) (g : Nat)
    (sc cat : ChannelId) (hok : ∀ m, moveOk m = true) :
    ∀ (admins : List MemberId) (empties chans : List SessionChannel)
      (st : BotState),
    (adminLoop moveOk g sc cat admins empties chans st).1
      = chans ++ createdChans admins empties st.nextId ∧
    (adminLoop moveOk g sc cat admins empties chans st).2.1.calls
      = st.calls ++ adminCallsOf g sc cat admins empties st.nextId ∧
    (adminLoop moveOk g sc cat admins empties chans st).2.2 = true := by
  intro admins
  induction admins with
  | nil =>
    intro empties chans st
    exact ⟨by simp [adminLoop, createdChans], by simp [adminLoop, adminCallsOf], rfl⟩
  | cons a rest ih =>
    intro empties chans st
    rcases List.eq_nil_or_concat empties with rfl | ⟨es, e, rfl⟩
    · simp only [adminLoop, adminAssign, createdChans, adminCallsOf,
        jsPop_nil, hok a, if_true]
      obtain ⟨ih1, ih2, ih3⟩ := ih [] (chans ++ [⟨st.nextId, .ADMIN_SILENCE⟩])
        { idx := echoMove st.idx a st.nextId,
          calls := st.calls ++ [.createMessage sc, .createChannel st.nextId cat,
            .editGuildMember g a st.nextId],
          nextId := st.nextId + 1 }
      refine ⟨?_, ?_, ih3⟩
      · rw [ih1]
        simp
      · rw [ih2]
        simp
    · simp only [List.concat_eq_append, adminLoop, adminAssign, createdChans,
        adminCallsOf, jsPop_concat, hok a, if_true]
      obtain ⟨ih1, ih2, ih3⟩ := ih es chans
        { st with
            calls := st.calls ++ [.editGuildMember g a e.channelId],
            idx := echoMove st.idx a e.channelId }
      refine ⟨?_, ?_, ih3⟩
      · rw [ih1]
      · rw [ih2]
        simp

lemma adminAssign_fst : ∀ (admins : List MemberId)
    (empties : List SessionChannel) (nid : ChannelId),
    (adminAssign admins empties nid).map Prod.fst = admins := by
  intro admins
  induction admins with
  | nil => intro empties nid; rfl
  | cons a rest ih =>
    intro empties nid
    rcases List.eq_nil_or_concat empties with rfl | ⟨es, e, rfl⟩
    · simp only [adminAssign, jsPop_nil, List.map_cons, ih]
    · simp only [List.concat_eq_append, adminAssign, jsPop_concat,
        List.map_cons, ih]

/-- Every assigned channel is either one of the free admin channels or a
freshly created channel (id at least `nid`), recorded in
`createdChans`. -/
lemma adminAssign_targets : ∀ (admins : List MemberId)
    (empties : List SessionChannel) (nid : ChannelId)
    (p : MemberId × ChannelId), p ∈ adminAssign admins empties nid →
    p.2 ∈ empties.map SessionChannel.channelId ∨
      (nid ≤ p.2 ∧ ⟨p.2, .ADMIN_SILENCE⟩ ∈ createdChans admins empties nid) := by
  intro admins
  induction admins with
  | nil => intro empties nid p hp; simp [adminAssign] at hp
  | cons a rest ih =>
    intro empties nid p hp
    rcases List.eq_nil_or_concat empties with rfl | ⟨es, e, rfl⟩
    · simp only [adminAssign, jsPop_nil, List.mem_cons] at hp
      simp only [createdChans, jsPop_nil]
      rcases hp with rfl | hp
      · exact Or.inr ⟨le_refl _, by simp⟩
      · rcases ih [] (nid + 1) p hp with h | ⟨h1, h2⟩
        · simp at h
        · exact Or.inr ⟨Nat.le_of_succ_le h1, List.mem_cons_of_mem _ h2⟩
    · simp only [List.concat_eq_append, adminAssign, jsPop_concat,
        List.mem_cons] at hp
      simp only [List.concat_eq_append, createdChans, jsPop_concat]
      rcases hp with rfl | hp
      · exact Or.inl (by simp)
      · rcases ih es nid p hp with h | ⟨h1, h2⟩
        · refine Or.inl ?_
          rw [List.map_append]
          exact List.mem_append_left _ h
        · exact Or.inr ⟨h1, h2⟩

/-- Distinct administrators are assigned distinct channels: the free
channels are popped without replacement and created ids are fresh. -/
lemma adminAssign_snd_nodup : ∀ (admins : List MemberId)
    (empties : List SessionChannel) (nid : ChannelId),
    (empties.map SessionChannel.channelId).Nodup →
    (∀ ch ∈ empties, ch.channelId < nid) →
    ((adminAssign admins empties nid).map Prod.snd).Nodup := by
  intro admins
  induction admins with
  | nil => intro empties nid _ _; simp [adminAssign]
  | cons a rest ih =>
    intro empties nid hnd hlt
    rcases List.eq_nil_or_concat empties with rfl | ⟨es, e, rfl⟩
    · simp only [adminAssign, jsPop_nil, List.map_cons, List.nodup_cons]
      constructor
      · intro hmem
        obtain ⟨p, hp, hp2⟩ := List.mem_map.mp hmem
        rcases adminAssign_targets rest [] (nid + 1) p hp with h | ⟨h1, _⟩
        · simp at h
        · rw [hp2] at h1
          exact absurd h1 (Nat.not_succ_le_self nid)
      · exact ih [] (nid + 1) (by simp) (by simp)
    · simp only [List.concat_eq_append] at hnd hlt
      simp only [List.concat_eq_append, adminAssign, jsPop_concat,
        List.map_cons, List.nodup_cons]
      have hnd' : (es.map SessionChannel.channelId).Nodup := by
        rw [List.map_append] at hnd
        exact (List.nodup_append.mp hnd).1
      have hene : e.channelId ∉ es.map SessionChannel.channelId := by
        rw [List.map_append] at hnd
        have hdisj := (List.nodup_append.mp hnd).2.2
        intro hmem
        exact hdisj hmem (by simp)
      constructor
      · intro hmem
        obtain ⟨p, hp, hp2⟩ := List.mem_map.mp hmem
        rcases adminAssign_targets rest es nid p hp with h | ⟨h1, _⟩
        · rw [hp2] at h
          exact hene h
        · have he := hlt e (List.mem_append_right _ (by simp))
          rw [hp2] at h1
          exact absurd h1 (Nat.not_le.mpr he)
      · exact ih es nid hnd'
          (fun ch hch => hlt ch (List.mem_append_left _ hch))

/-- The created channels are all ADMIN_SILENCE with fresh ids. -/
lemma createdChans_spec : ∀ (admins : List MemberId)
    (empties : List SessionChannel) (nid : ChannelId)
    (ch : SessionChannel), ch ∈ createdChans admins empties nid →
    ch.type = .ADMIN_SILENCE ∧ nid ≤ ch.channelId := by
  intro admins
  induction admins with
  | nil => intro empties nid ch hch; simp [createdChans] at hch
  | cons a rest ih =>
    intro empties nid ch hch
    rcases List.eq_nil_or_concat empties with rfl | ⟨es, e, rfl⟩
    · simp only [createdChans, jsPop_nil, List.mem_cons] at hch
      rcases hch with rfl | hch
      · exact ⟨rfl, le_refl _⟩
      · obtain ⟨h1, h2⟩ := ih [] (nid + 1) ch hch
        exact ⟨h1, Nat.le_of_succ_le h2⟩
    · simp only [List.concat_eq_append, createdChans, jsPop_concat] at hch
      exact ih es nid ch hch

/-- The admin-loop calls are exactly the notices, creations and the
per-administrator moves of the assignment. -/
lemma adminCallsOf_edit_iff (g : Nat) (sc cat : ChannelId) :
    ∀ (admins : List MemberId) (empties : List SessionChannel)
      (nid : ChannelId) (a : MemberId) (t : ChannelId),
    BotCall.editGuildMember g a t ∈ adminCallsOf g sc cat admins empties nid ↔
      (a, t) ∈ adminAssign admins empties nid := by
  intro admins
  induction admins with
  | nil => intro empties nid a t; simp [adminCallsOf, adminAssign]
  | cons x rest ih =>
    intro empties nid a t
    rcases List.eq_nil_or_concat empties with rfl | ⟨es, e, rfl⟩
    · simp only [adminCallsOf, adminAssign, jsPop_nil, List.mem_cons]
      rw [ih]
      constructor
      · rintro (h | h | h | h)
        · cases h
        · cases h
        · exact Or.inl (by injection h with h1 h2 h3; rw [h2, h3])
        · exact Or.inr h
      · rintro (h | h)
        · injection h with h1 h2
          subst h1; subst h2
          exact Or.inr (Or.inr (Or.inl rfl))
        · exact Or.inr (Or.inr (Or.inr h))
    · simp only [List.concat_eq_append, adminCallsOf, adminAssign,
        jsPop_concat, List.mem_cons]
      rw [ih]
      constructor
      · rintro (h | h)
        · exact Or.inl (by injection h with h1 h2 h3; rw [h2, h3])
        · exact Or.inr h
      · rintro (h | h)
        · injection h with h1 h2
          subst h1; subst h2
          exact Or.inl rfl
        · exact Or.inr h

/-- C6: after `movePlayersToSilenceChannel` on a well-formed session
(fresh platform ids, duplicate-free channel ids), with an all-accepting
platform: no administrator is moved to the shared SILENCE channel; every
administrator that was in the talking channel is moved to its assigned
channel; no two administrators are assigned the same channel; and every
assigned channel is an ADMIN_SILENCE channel of the resulting session —
so each administrator ends up alone in one. -/
theorem reconcileToSilence_admin_isolation
    (moveOk adminP : MemberId → Bool) (sess : AmongUsSession) (st : BotState)
    (cat talk sil : SessionChannel)
    (hcat : sess.channels.find? (fun ch => ch.type == .CATEGORY) = some cat)
    (htalk : sess.channels.find? (fun ch => ch.type == .TALKING) = some talk)
    (hsil : sess.channels.find? (fun ch => ch.type == .SILENCE) = some sil)
    (hok : ∀ m, moveOk m = true)
    (hfresh : ∀ ch ∈ sess.channels, ch.channelId < st.nextId)
    (hids : (sess.channels.map SessionChannel.channelId).Nodup) :
    ∃ sess' st' ok newCalls,
      movePlayersToSilenceChannel moveOk adminP sess st = some (sess', st', ok) ∧
      st'.calls = st.calls ++ newCalls ∧
      (adminAssign ((getMembersInChannel st.idx talk.channelId).filter adminP)
          (sess.channels.filter (fun ch => ch.type == .ADMIN_SILENCE &&
            (getMembersInChannel st.idx ch.channelId).length == 0))
          st.nextId).map Prod.fst
        = (getMembersInChannel st.idx talk.channelId).filter adminP ∧
      ((adminAssign ((getMembersInChannel st.idx talk.channelId).filter adminP)
          (sess.channels.filter (fun ch => ch.type == .ADMIN_SILENCE &&
            (getMembersInChannel st.idx ch.channelId).length == 0))
          st.nextId).map Prod.snd).Nodup ∧
      (∀ p ∈ adminAssign ((getMembersInChannel st.idx talk.channelId).filter adminP)
          (sess.channels.filter (fun ch => ch.type == .ADMIN_SILENCE &&
            (getMembersInChannel st.idx ch.channelId).length == 0))
          st.nextId,
        BotCall.editGuildMember sess.guild p.1 p.2 ∈ newCalls ∧
        p.2 ≠ sil.channelId ∧
        ∃ ch ∈ sess'.channels, ch.channelId = p.2 ∧ ch.type = .ADMIN_SILENCE) ∧
      (∀ a, adminP a = true →
        BotCall.editGuildMember sess.guild a sil.channelId ∉ newCalls) := by
  obtain ⟨h1, h2, h3⟩ := adminLoop_closed moveOk sess.guild sess.channel
    cat.channelId hok
    ((getMembersInChannel st.idx talk.channelId).filter adminP)
    (sess.channels.filter (fun ch => ch.type == .ADMIN_SILENCE &&
      (getMembersInChannel st.idx ch.channelId).length == 0)) [] st
  -- facts about the free admin channels
  have hsubE : (sess.channels.filter (fun ch => ch.type == .ADMIN_SILENCE &&
      (getMembersInChannel st.idx ch.channelId).length == 0)).Sublist sess.channels :=
    List.filter_sublist _
  have hndE : ((sess.channels.filter (fun ch => ch.type == .ADMIN_SILENCE &&
      (getMembersInChannel st.idx ch.channelId).length == 0)).map
        SessionChannel.channelId).Nodup :=
    (hsubE.map SessionChannel.channelId).nodup hids
  have hltE : ∀ ch ∈ sess.channels.filter (fun ch => ch.type == .ADMIN_SILENCE &&
      (getMembersInChannel st.idx ch.channelId).length == 0),
      ch.channelId < st.nextId :=
    fun ch hch => hfresh ch (List.mem_of_mem_filter hch)
  have hsilmem : sil ∈ sess.channels := List.mem_of_find?_eq_some hsil
  have hsiltype : sil.type = .SILENCE := by
    have := List.find?_some hsil
    exact beq_iff_eq.mp this
  have hsillt : sil.channelId < st.nextId := hfresh sil hsilmem
  -- main facts about the assignment
  have htgts : ∀ p ∈ adminAssign
      ((getMembersInChannel st.idx talk.channelId).filter adminP)
      (sess.channels.filter (fun ch => ch.type == .ADMIN_SILENCE &&
        (getMembersInChannel st.idx ch.channelId).length == 0))
      st.nextId,
      p.2 ≠ sil.channelId ∧
      ∃ ch, (ch ∈ sess.channels ++ createdChans
          ((getMembersInChannel st.idx talk.channelId).filter adminP)
          (sess.channels.filter (fun ch => ch.type == .ADMIN_SILENCE &&
            (getMembersInChannel st.idx ch.channelId).length == 0))
          st.nextId) ∧ ch.channelId = p.2 ∧ ch.type = .ADMIN_SILENCE := by
    intro p hp
    rcases adminAssign_targets _ _ _ p hp with h | ⟨hge, hcreated⟩
    · obtain ⟨e, he, heid⟩ := List.mem_map.mp h
      have hech : e ∈ sess.channels := List.mem_of_mem_filter he
      have hetype : e.type = .ADMIN_SILENCE := by
        have := List.of_mem_filter he
        simp only [Bool.and_eq_true, beq_iff_eq] at this
        exact this.1
      constructor
      · intro hcontra
        have : e = sil := List.inj_on_of_nodup_map hids hech hsilmem
          (by rw [heid, hcontra])
        rw [this] at hetype
        rw [hsiltype] at hetype
        cases hetype
      · exact ⟨e, List.mem_append_left _ hech, heid, hetype⟩
    · constructor
      · intro hcontra
        rw [hcontra] at hge
        exact absurd hge (Nat.not_le.mpr hsillt)
      · exact ⟨⟨p.2, .ADMIN_SILENCE⟩, List.mem_append_right _ hcreated, rfl, rfl⟩
  -- run the function
  unfold movePlayersToSilenceChannel
  rw [hcat, htalk, hsil]
  simp only [h3, if_true]
  refine ⟨_, _, _,
    adminCallsOf sess.guild sess.channel cat.channelId
      ((getMembersInChannel st.idx talk.channelId).filter adminP)
      (sess.channels.filter (fun ch => ch.type == .ADMIN_SILENCE &&
        (getMembersInChannel st.idx ch.channelId).length == 0))
      st.nextId
      ++ ((getMembersInChannel st.idx talk.channelId).filter
            (fun x => !(adminP x))).map
          (fun m => BotCall.editGuildMember sess.guild m sil.channelId),
    rfl, ?_, adminAssign_fst _ _ _, ?_, ?_, ?_⟩
  · rw [moveBatch_calls, h2, List.append_assoc]
  · exact adminAssign_snd_nodup _ _ _ hndE hltE
  · intro p hp
    refine ⟨List.mem_append_left _ ((adminCallsOf_edit_iff _ _ _ _ _ _ _ _).mpr hp),
      (htgts p hp).1, ?_⟩
    obtain ⟨ch, hch, hcid, hctype⟩ := (htgts p hp).2
    refine ⟨ch, ?_, hcid, hctype⟩
    simp only [h1, List.nil_append] at hch ⊢
    exact hch
  · intro a ha hmem
    rcases List.mem_append.mp hmem with hmem | hmem
    · have := (adminCallsOf_edit_iff _ _ _ _ _ _ _ _).mp hmem
      exact absurd rfl (htgts _ this).1
    · obtain ⟨m, hm, hcall⟩ := List.mem_map.mp hmem
      injection hcall with hg hm2 ht
      rw [hm2] at hm
      have := List.of_mem_filter hm
      rw [ha] at this
      cases this

/-- C6 (witness): administrators 1 and 2 in the talking channel of
`demoPlayingSession` (no free admin channels): both are assigned distinct
fresh ADMIN_SILENCE channels, neither is moved to the shared SILENCE
channel 11. -/
theorem reconcileToSilence_admin_isolation_witness :
    ∃ sess' st' ok newCalls,
      movePlayersToSilenceChannel (fun _ => true) (fun m => m == 1 || m == 2)
        demoPlayingSession ⟨[(10, [1, 2])], [], 100⟩ = some (sess', st', ok) ∧
      st'.calls = [] ++ newCalls ∧
      (adminAssign [1, 2] [] 100).map Prod.fst = [1, 2] ∧
      ((adminAssign [1, 2] [] 100).map Prod.snd).Nodup ∧
      (∀ p ∈ adminAssign [1, 2] [] 100,
        BotCall.editGuildMember 1 p.1 p.2 ∈ newCalls ∧
        p.2 ≠ 11 ∧
        ∃ ch ∈ sess'.channels, ch.channelId = p.2 ∧ ch.type = .ADMIN_SILENCE) ∧
      (∀ a, (a == 1 || a == 2) = true →
        BotCall.editGuildMember 1 a 11 ∉ newCalls) :=
  reconcileToSilence_admin_isolation (fun _ => true) (fun m => m == 1 || m == 2)
    demoPlayingSession ⟨[(10, [1, 2])], [], 100⟩ ⟨9, .CATEGORY⟩ ⟨10, .TALKING⟩
    ⟨11, .SILENCE⟩ rfl rfl rfl (fun _ => rfl) (by decide) (by decide)

/-! ### The silence/talking round trip (C9) -/

/-- Echo of moving the head member of the talking channel into the
silence channel, on a two-entry index. -/
lemma echoMove_drain (talk sil : ChannelId) (hts : talk ≠ sil)
    (m : MemberId) (rest done : List MemberId) :
    echoMove [(talk, m :: rest), (sil, done)] m sil
      = [(talk, rest), (sil, done ++ [m])] := by
  simp [echoMove, findChannelOf, List.find?_cons, leaveIndex, joinIndex,
    getMembersInChannel, mapGet, mapSet, hts, Ne.symm hts, List.erase_cons_head]

/-- Echo of moving the head member of the silence channel back into the
talking channel, on a two-entry index. -/
lemma echoMove_fill (talk sil : ChannelId) (hts : talk ≠ sil)
    (m : MemberId) (rest done : List MemberId) (hmd : m ∉ done) :
    echoMove [(talk, done), (sil, m :: rest)] m talk
      = [(talk, done ++ [m]), (sil, rest)] := by
  simp [echoMove, findChannelOf, List.find?_cons, leaveIndex, joinIndex,
    getMembersInChannel, mapGet, mapSet, hts, Ne.symm hts, List.erase_cons_head,
    hmd]

/-- Draining the talking channel: the batch moves every one of its
members to the silence channel, and the index ends with the talking
entry empty and the silence entry holding everybody. -/
lemma moveBatch_to_silence (moveOk : MemberId → Bool) (g : Nat)
    (talk sil : ChannelId) (hts : talk ≠ sil) (hok : ∀ m, moveOk m = true) :
    ∀ (ms done : List MemberId) (calls : List BotCall) (nid : ChannelId),
    moveBatch moveOk g ms sil ⟨[(talk, ms), (sil, done)], calls, nid⟩
      = (⟨[(talk, []), (sil, done ++ ms)],
          calls ++ ms.map (fun m => BotCall.editGuildMember g m sil), nid⟩,
         true) := by
  intro ms
  induction ms with
  | nil => intro done calls nid; simp [moveBatch]
  | cons m rest ih =>
    intro done calls nid
    have hstep : moveBatch moveOk g (m :: rest) sil
        ⟨[(talk, m :: rest), (sil, done)], calls, nid⟩
        = moveBatch moveOk g rest sil
            ⟨echoMove [(talk, m :: rest), (sil, done)] m sil,
             calls ++ [.editGuildMember g m sil], nid⟩ := by
      simp [moveBatch, moveOne, hok m]
    rw [hstep, echoMove_drain talk sil hts m rest done, ih]
    simp

/-- Refilling the talking channel: the batch moves every member of the
silence channel back, and the index ends with the silence entry empty. -/
lemma moveBatch_to_talking (moveOk : MemberId → Bool) (g : Nat)
    (talk sil : ChannelId) (hts : talk ≠ sil) (hok : ∀ m, moveOk m = true) :
    ∀ (ms done : List MemberId) (calls : List BotCall) (nid : ChannelId),
    (done ++ ms).Nodup →
    moveBatch moveOk g ms talk ⟨[(talk, done), (sil, ms)], calls, nid⟩
      = (⟨[(talk, done ++ ms), (sil, [])],
          calls ++ ms.map (fun m => BotCall.editGuildMember g m talk), nid⟩,
         true) := by
  intro ms
  induction ms with
  | nil => intro done calls nid _; simp [moveBatch]
  | cons m rest ih =>
    intro done calls nid hnd
    have hmd : m ∉ done := by
      rw [List.nodup_append] at hnd
      intro hmem
      exact hnd.2.2 hmem (List.mem_cons_self _ _)
    have hstep : moveBatch moveOk g (m :: rest) talk
        ⟨[(talk, done), (sil, m :: rest)], calls, nid⟩
        = moveBatch moveOk g rest talk
            ⟨echoMove [(talk, done), (sil, m :: rest)] m talk,
             calls ++ [.editGuildMember g m talk], nid⟩ := by
      simp [moveBatch, moveOne, hok m]
    have hnd' : ((done ++ [m]) ++ rest).Nodup := by
      rw [List.append_assoc]
      exact hnd
    rw [hstep, echoMove_fill talk sil hts m rest done hmd,
      ih (done ++ [m]) (calls ++ [BotCall.editGuildMember g m talk]) nid hnd']
    simp

/-- Draining an already-empty silence-typed channel is a no-op. -/
lemma foldTalking_empty (moveOk : MemberId → Bool) (sess : AmongUsSession)
    (tid : ChannelId) :
    ∀ (chans : List SessionChannel) (st : BotState) (b : Bool),
    (∀ ch ∈ chans, getMembersInChannel st.idx ch.channelId = []) →
    chans.foldl (fun acc ch =>
        let r := moveAllPlayers moveOk sess ch.channelId tid acc.1
        (r.1, acc.2 && r.2)) (st, b)
      = (st, b) := by
  intro chans
  induction chans with
  | nil => intro st b _; rfl
  | cons ch rest ih =>
    intro st b hempty
    have h0 := hempty ch (List.mem_cons_self _ _)
    have hstep : moveAllPlayers moveOk sess ch.channelId tid st = (st, true) := by
      unfold moveAllPlayers
      rw [h0]
      rfl
    simp only [List.foldl_cons, hstep, Bool.and_true]
    exact ih st b (fun c hc => hempty c (List.mem_cons_of_mem _ hc))

lemma session_channels_append_nil (s : AmongUsSession) :
    { s with channels := s.channels ++ [] } = s := by
  cases s
  simp

/-- A PLAYING session with the three eagerly-created channels plus any
leftover ADMIN_SILENCE channels. -/
def roundtripSession (g chanT msgT : Nat) (cat talk sil : ChannelId)
    (adminChans : List SessionChannel) : AmongUsSession :=
  { guild := g, channel := chanT, message := msgT, user := "host",
    state := .PLAYING, region := .EUROPE, lobbyCode := "ABCDEF".toList,
    channels := [⟨cat, .CATEGORY⟩, ⟨talk, .TALKING⟩, ⟨sil, .SILENCE⟩]
      ++ adminChans }

/-- Phase 1 of the round trip: with no administrators among the talking
channel's members, `movePlayersToSilenceChannel` moves everybody to the
SILENCE channel and changes nothing else. -/
lemma roundtrip_phase1 (moveOk adminP : MemberId → Bool)
    (g chanT msgT : Nat) (cat talk sil : ChannelId)
    (adminChans : List SessionChannel) (M : List MemberId)
    (calls : List BotCall) (nid : ChannelId)
    (hts : talk ≠ sil)
    (hadm : ∀ m ∈ M, adminP m = false)
    (hok : ∀ m, moveOk m = true) :
    movePlayersToSilenceChannel moveOk adminP
        (roundtripSession g chanT msgT cat talk sil adminChans)
        ⟨[(talk, M), (sil, [])], calls, nid⟩
      = some (roundtripSession g chanT msgT cat talk sil adminChans,
              ⟨[(talk, []), (sil, M)],
               calls ++ M.map (fun m => BotCall.editGuildMember g m sil), nid⟩,
              true) := by
  have hfindc : (roundtripSession g chanT msgT cat talk sil adminChans).channels.find?
      (fun ch => ch.type == .CATEGORY) = some ⟨cat, .CATEGORY⟩ := rfl
  have hfindt : (roundtripSession g chanT msgT cat talk sil adminChans).channels.find?
      (fun ch => ch.type == .TALKING) = some ⟨talk, .TALKING⟩ := rfl
  have hfinds : (roundtripSession g chanT msgT cat talk sil adminChans).channels.find?
      (fun ch => ch.type == .SILENCE) = some ⟨sil, .SILENCE⟩ := rfl
  have hplayers : getMembersInChannel [(talk, M), (sil, [])] talk = M := by
    simp [getMembersInChannel, mapGet]
  have hfilterAdmins : M.filter adminP = [] :=
    List.filter_eq_nil_iff.mpr (fun m hm => by simp [hadm m hm])
  have hfilterNormals : M.filter (fun x => !(adminP x)) = M :=
    List.filter_eq_self.mpr (fun m hm => by simp [hadm m hm])
  have hbatch := moveBatch_to_silence moveOk g talk sil hts hok M [] calls nid
  unfold movePlayersToSilenceChannel
  rw [hfindc, hfindt, hfinds]
  simp only [hplayers, hfilterAdmins, hfilterNormals, adminLoop,
    List.nil_append, List.append_nil, if_true]
  rw [show (roundtripSession g chanT msgT cat talk sil adminChans).guild = g
      from rfl, hbatch]
  rfl

/-- Phase 2 of the round trip: `movePlayersToTalkingChannel` empties the
SILENCE channel (and every leftover ADMIN_SILENCE channel, which is
already empty) back into the TALKING channel. -/
lemma roundtrip_phase2 (moveOk : MemberId → Bool)
    (g chanT msgT : Nat) (cat talk sil : ChannelId)
    (adminChans : List SessionChannel) (M : List MemberId)
    (calls : List BotCall) (nid : ChannelId)
    (hts : talk ≠ sil)
    (hadmCh : ∀ ch ∈ adminChans, ch.type = .ADMIN_SILENCE ∧
      ch.channelId ≠ talk ∧ ch.channelId ≠ sil)
    (hM : M.Nodup) (hok : ∀ m, moveOk m = true) :
    movePlayersToTalkingChannel moveOk
        (roundtripSession g chanT msgT cat talk sil adminChans)
        ⟨[(talk, []), (sil, M)], calls, nid⟩
      = some (⟨[(talk, M), (sil, [])],
              calls ++ M.map (fun m => BotCall.editGuildMember g m talk), nid⟩,
             true) := by
  have hfindt : (roundtripSession g chanT msgT cat talk sil adminChans).channels.find?
      (fun ch => ch.type == .TALKING) = some ⟨talk, .TALKING⟩ := rfl
  have hfilter : (roundtripSession g chanT msgT cat talk sil adminChans).channels.filter
      (fun ch => SILENCE_CHANNELS.contains ch.type)
      = ⟨sil, .SILENCE⟩ :: adminChans := by
    show ([(⟨cat, .CATEGORY⟩ : SessionChannel), ⟨talk, .TALKING⟩, ⟨sil, .SILENCE⟩]
        ++ adminChans).filter (fun ch => SILENCE_CHANNELS.contains ch.type) = _
    rw [List.filter_append]
    have h1 : [(⟨cat, .CATEGORY⟩ : SessionChannel), ⟨talk, .TALKING⟩,
        ⟨sil, .SILENCE⟩].filter (fun ch => SILENCE_CHANNELS.contains ch.type)
        = [⟨sil, .SILENCE⟩] := rfl
    have h2 : adminChans.filter (fun ch => SILENCE_CHANNELS.contains ch.type)
        = adminChans :=
      List.filter_eq_self.mpr (fun ch hch => by
        rw [(hadmCh ch hch).1]
        rfl)
    rw [h1, h2]
    rfl
  have hmembers : getMembersInChannel [(talk, []), (sil, M)] sil = M := by
    simp [getMembersInChannel, mapGet, hts]
  have hbatch := moveBatch_to_talking moveOk g talk sil hts hok M [] calls nid
    (by simpa using hM)
  have hfirst : moveAllPlayers moveOk
      (roundtripSession g chanT msgT cat talk sil adminChans) sil talk
      ⟨[(talk, []), (sil, M)], calls, nid⟩
      = (⟨[(talk, M), (sil, [])],
          calls ++ M.map (fun m => BotCall.editGuildMember g m talk), nid⟩,
         true) := by
    unfold moveAllPlayers
    show moveBatch moveOk g
      (getMembersInChannel [(talk, []), (sil, M)] sil) talk
      ⟨[(talk, []), (sil, M)], calls, nid⟩ = _
    rw [hmembers, hbatch]
    simp
  have hempty : ∀ ch ∈ adminChans,
      getMembersInChannel ([(talk, M), (sil, [])] : Index) ch.channelId = [] := by
    intro ch hch
    obtain ⟨_, hnt, hns⟩ := hadmCh ch hch
    simp [getMembersInChannel, mapGet, Ne.symm hnt, Ne.symm hns]
  unfold movePlayersToTalkingChannel
  rw [hfindt, hfilter]
  simp only [List.foldl_cons, hfirst, Bool.true_and]
  rw [foldTalking_empty moveOk
    (roundtripSession g chanT msgT cat talk sil adminChans) talk adminChans
    _ _ hempty]

/-- C9: for a session with no administrator members,
`movePlayersToSilenceChannel` immediately followed by
`movePlayersToTalkingChannel` restores every member who started in the
TALKING channel back to that same TALKING channel (and empties the
SILENCE channel again). -/
theorem silence_then_talking_roundtrip (moveOk adminP : MemberId → Bool)
    (g chanT msgT : Nat) (cat talk sil : ChannelId)
    (adminChans : List SessionChannel) (M : List MemberId)
    (calls : List BotCall) (nid : ChannelId)
    (hts : talk ≠ sil)
    (hadmCh : ∀ ch ∈ adminChans, ch.type = .ADMIN_SILENCE ∧
      ch.channelId ≠ talk ∧ ch.channelId ≠ sil)
    (hM : M.Nodup)
    (hadm : ∀ m ∈ M, adminP m = false)
    (hok : ∀ m, moveOk m = true) :
    ∃ st₁ st₂,
      movePlayersToSilenceChannel moveOk adminP
          (roundtripSession g chanT msgT cat talk sil adminChans)
          ⟨[(talk, M), (sil, [])], calls, nid⟩
        = some (roundtripSession g chanT msgT cat talk sil adminChans, st₁, true) ∧
      movePlayersToTalkingChannel moveOk
          (roundtripSession g chanT msgT cat talk sil adminChans) st₁
        = some (st₂, true) ∧
      getMembersInChannel st₂.idx talk = M ∧
      getMembersInChannel st₂.idx sil = [] := by
  refine ⟨_, _,
    roundtrip_phase1 moveOk adminP g chanT msgT cat talk sil adminChans M
      calls nid hts hadm hok,
    roundtrip_phase2 moveOk g chanT msgT cat talk sil adminChans M
      (calls ++ M.map (fun m => BotCall.editGuildMember g m sil)) nid hts
      hadmCh hM hok, ?_, ?_⟩
  · simp [getMembersInChannel, mapGet]
  · simp [getMembersInChannel, mapGet, hts]

/-- C9 (witness): members 5 and 6 in talking channel 10 of a session
with one leftover admin channel 12; the round trip returns both to
channel 10 and empties channel 11. -/
theorem silence_then_talking_roundtrip_witness :
    ∃ st₁ st₂,
      movePlayersToSilenceChannel (fun _ => true) (fun _ => false)
          (roundtripSession 1 2 3 9 10 11 [⟨12, .ADMIN_SILENCE⟩])
          ⟨[(10, [5, 6]), (11, [])], [], 100⟩
        = some (roundtripSession 1 2 3 9 10 11 [⟨12, .ADMIN_SILENCE⟩], st₁, true) ∧
      movePlayersToTalkingChannel (fun _ => true)
          (roundtripSession 1 2 3 9 10 11 [⟨12, .ADMIN_SILENCE⟩]) st₁
        = some (st₂, true) ∧
      getMembersInChannel st₂.idx 10 = [5, 6] ∧
      getMembersInChannel st₂.idx 11 = [] :=
  silence_then_talking_roundtrip (fun _ => true) (fun _ => false)
    1 2 3 9 10 11 [⟨12, .ADMIN_SILENCE⟩] [5, 6] [] 100
    (by decide) (by decide) (by decide) (fun _ _ => rfl) (fun _ => rfl)

end Impostor
